import Mathlib

/-!
Shallow embedding of the virtual-memory simulator (`src/main.c`).

The C program replays a trace of `(operation char, 32-bit address)` records
through an optional fully-associative TLB and a fixed array of page frames
governed by a FIFO / LRU / CLOCK eviction policy and a
write-through / write-back dirty policy.

C machine integers are modelled as follows:
* `unsigned int` values (addresses, VPNs) are `Nat` reduced mod `2^32`;
* `unsigned long` (the tick counter, `last_used` stamps) are `Nat`
  reduced mod `2^64` where incremented;
* `int` occupants of the frame array are `Int` (the sentinel `-1` and
  cast VPNs), with the C casts `(int)` / `(unsigned int)` made explicit
  (`castUIntToInt`, `castIntToUInt`);
* the `int` flags `valid`, `ref_bits[..]`, `dirty[..]` only ever hold
  0 / 1 in the C code and are modelled as `Bool`;
* counters are `Nat` (the C run would have undefined behaviour long
  before any of these overflow matters for the properties proved here).
-/

namespace VMSim

/-- Constant `PAGE_SIZE` from `main.c`. -/
def PAGE_SIZE : Nat := 4096

/-- Modulus of C `unsigned int` (32-bit). -/
def UINT_MOD : Nat := 2 ^ 32

/-- Modulus of C `unsigned long` (64-bit on the target platform). -/
def ULONG_MOD : Nat := 2 ^ 64

/-- The C cast `(int)u` of an `unsigned int` value `u < 2^32`
(two's-complement wrap into the signed range). -/
def castUIntToInt (u : Nat) : Int :=
  if u < 2 ^ 31 then (u : Int) else (u : Int) - 2 ^ 32

/-- The C cast `(unsigned int)i` of an `int` value
(reduction mod `2^32` into the unsigned range). -/
def castIntToUInt (i : Int) : Nat :=
  (i % (2 ^ 32 : Int)).toNat

/-- Enum `Algorithm` from `main.c` (`ALG_FIFO`, `ALG_LRU`, `ALG_CLOCK`). -/
inductive Algorithm where
  | fifo
  | lru
  | clock
deriving DecidableEq

/-- Enum `WritePolicy` from `main.c` (`WP_WRITE_THROUGH`, `WP_WRITE_BACK`). -/
inductive WritePolicy where
  | writeThrough
  | writeBack
deriving DecidableEq

/-- Struct `TLBEntry` from `main.c`. -/
structure TLBEntry where
  valid : Bool
  vpn : Nat
  frame_index : Int
  last_used : Nat
deriving DecidableEq

/-- A zeroed `TLBEntry`, as produced by `calloc` in `main.c`. -/
def TLBEntry.zeroed : TLBEntry := ⟨false, 0, 0, 0⟩

instance : Inhabited TLBEntry := ⟨TLBEntry.zeroed⟩

/-- The run configuration fixed by the CLI layer before the simulation
loop starts: `alg`, `write_policy`, `tlb_size` (already clamped to `≥ 0`,
hence a `Nat`), `num_frames` (the CLI rejects values `≤ 0`). -/
structure Config where
  alg : Algorithm
  write_policy : WritePolicy
  tlb_size : Nat
  num_frames : Nat
deriving DecidableEq

/-- All mutable simulation state of `main`: the frame array and its
per-frame metadata, the FIFO / CLOCK pointers, the tick counter, the TLB
array, and the statistics counters. -/
structure SimState where
  frames : List Int
  frame_last_used : List Nat
  ref_bits : List Bool
  dirty : List Bool
  fifo_index : Nat
  clock_hand : Nat
  tick : Nat
  tlb : List TLBEntry
  reads : Nat
  writes : Nat
  page_faults : Nat
  tlb_hits : Nat
  tlb_misses : Nat
  write_backs : Nat
deriving DecidableEq

/-- First index at which `p` holds, scanning left to right — the shape of
every `for (i = 0; i < n; i++) { if (P(a[i])) ... }` search loop in
`main.c`. -/
def scanIdx (p : α → Bool) : List α → Option Nat
  | [] => none
  | x :: xs => if p x then some 0 else (scanIdx p xs).map (· + 1)

/-- The argmin fold `victim = 0; for (i = 1; ...) if (key a[i] < key a[victim])
victim = i;` used both for TLB LRU eviction and for LRU frame eviction in
`main.c`: explicit fuel (at least the remaining loop iterations), running
index `i`, current best `v`. -/
def argminFrom [Inhabited α] (key : α → Nat) (l : List α) : Nat → Nat → Nat → Nat
  | 0, _, v => v
  | fuel + 1, i, v =>
      if i < l.length then
        argminFrom key l fuel (i + 1)
          (if key (l.getD i default) < key (l.getD v default) then i else v)
      else v

/-- Index of the first minimal `key` value in `l` (the full C fold,
starting at `i = 1` with `victim = 0`). -/
def argminIdx [Inhabited α] (key : α → Nat) (l : List α) : Nat :=
  argminFrom key l l.length 1 0

/-- Function `tlb_lookup` from `main.c`: scan for a valid entry with the given VPN;
on a hit, stamp its `last_used` with the current tick and return the frame
index together with the updated TLB array. -/
def tlb_lookup (tlb : List TLBEntry) (vpn : Nat) (tick : Nat) :
    Option (Int × List TLBEntry) :=
  match scanIdx (fun e => e.valid && e.vpn == vpn) tlb with
  | some i =>
      some ((tlb.getD i default).frame_index,
        tlb.set i { tlb.getD i default with last_used := tick })
  | none => none

/-- Function `tlb_insert` from `main.c`: update in place if the VPN is already
present and valid; otherwise fill the first invalid slot; otherwise evict
the entry with the smallest `last_used` (the C fold keeps the lowest index
on ties) and overwrite it. -/
def tlb_insert (tlb : List TLBEntry) (vpn : Nat) (fi : Int) (tick : Nat) :
    List TLBEntry :=
  if tlb.length = 0 then tlb
  else
    match scanIdx (fun e => e.valid && e.vpn == vpn) tlb with
    | some i =>
        tlb.set i { tlb.getD i default with frame_index := fi, last_used := tick }
    | none =>
        match scanIdx (fun e => !e.valid) tlb with
        | some i => tlb.set i ⟨true, vpn, fi, tick⟩
        | none =>
            tlb.set (argminIdx TLBEntry.last_used tlb) ⟨true, vpn, fi, tick⟩

/-- Function `tlb_invalidate_vpn` from `main.c`: clear the `valid` bit of every
entry whose VPN matches. -/
def tlb_invalidate_vpn (tlb : List TLBEntry) (vpn : Nat) : List TLBEntry :=
  tlb.map (fun e => if e.valid && e.vpn == vpn then { e with valid := false } else e)

/-- One iteration bundle of the CLOCK `while (1)` scan (`main.c`,
fault path, `ALG_CLOCK`), with explicit fuel: at the hand, a clear
`referenced` bit makes that frame the victim and advances the hand; a set
bit is cleared and the scan moves on. Returns
`(victim, updated ref bits, updated hand)`; `none` when the fuel runs out
(provably unreachable for fuel `> ref.count true`). -/
def clockScanF (fuel : Nat) (ref : List Bool) (hand : Nat) :
    Option (Nat × List Bool × Nat) :=
  match fuel with
  | 0 => none
  | f + 1 =>
      if ref.getD hand false then
        clockScanF f (ref.set hand false) ((hand + 1) % ref.length)
      else
        some (hand, ref, (hand + 1) % ref.length)

/-- The CLOCK scan of `main.c` as a total function: run `clockScanF` with
fuel `ref.count true + 1`, which always suffices (`clockScanF_enough`).
The fallback value is never used. -/
def clockScan (ref : List Bool) (hand : Nat) : Nat × List Bool × Nat :=
  (clockScanF (ref.count true + 1) ref hand).getD (hand, ref, hand)

/-- The three per-frame metadata updates shared verbatim by the TLB-hit,
frame-hit and fault paths of `main.c`: stamp `frame_last_used` under LRU,
set the `referenced` bit under CLOCK, set the dirty bit on a write under
write-back. -/
def touchMeta (cfg : Config) (op : Char) (i : Nat) (st : SimState) : SimState :=
  { st with
      frame_last_used :=
        if cfg.alg = Algorithm.lru then st.frame_last_used.set i st.tick
        else st.frame_last_used
      ref_bits :=
        if cfg.alg = Algorithm.clock then st.ref_bits.set i true
        else st.ref_bits
      dirty :=
        if op = 'W' ∧ cfg.write_policy = WritePolicy.writeBack then st.dirty.set i true
        else st.dirty }

/-- Victim-frame selection on a page fault (`main.c` fault path): any
empty frame is used first; only with every frame occupied is the
configured policy consulted (FIFO rotating pointer, LRU argmin of
`frame_last_used`, CLOCK second-chance scan). Returns the victim index
and the state with any policy-pointer updates applied. -/
def selectVictim (cfg : Config) (st : SimState) : Nat × SimState :=
  match scanIdx (fun x => x == (-1 : Int)) st.frames with
  | some i => (i, st)
  | none =>
      match cfg.alg with
      | Algorithm.fifo =>
          (st.fifo_index,
            { st with fifo_index := (st.fifo_index + 1) % st.frames.length })
      | Algorithm.lru => (argminIdx id st.frame_last_used, st)
      | Algorithm.clock =>
          let r := clockScan st.ref_bits st.clock_hand
          (r.1, { st with ref_bits := r.2.1, clock_hand := r.2.2 })

/-- Eviction bookkeeping for an occupied victim frame (`main.c`,
`if (frames[victim] != -1) { ... }`): invalidate the outgoing VPN in the
TLB, and under write-back count and clear a dirty victim. -/
def handleEviction (cfg : Config) (victim : Nat) (st : SimState) : SimState :=
  if st.frames.getD victim (-1) ≠ -1 then
    { st with
        tlb :=
          if 0 < cfg.tlb_size then
            tlb_invalidate_vpn st.tlb (castIntToUInt (st.frames.getD victim (-1)))
          else st.tlb
        write_backs :=
          if cfg.write_policy = WritePolicy.writeBack ∧ st.dirty.getD victim false then
            st.write_backs + 1
          else st.write_backs
        dirty :=
          if cfg.write_policy = WritePolicy.writeBack ∧ st.dirty.getD victim false then
            st.dirty.set victim false
          else st.dirty }
  else st

/-- The page-fault path of `main.c`: count the fault, pick a victim,
handle any eviction, install the new VPN, apply the metadata updates, and
insert the new mapping into the TLB when enabled. -/
def faultPath (cfg : Config) (op : Char) (vpn : Nat) (st : SimState) : SimState :=
  let st0 := { st with page_faults := st.page_faults + 1 }
  let vs := selectVictim cfg st0
  let st1 := handleEviction cfg vs.1 vs.2
  let st2 := { st1 with frames := st1.frames.set vs.1 (castUIntToInt vpn) }
  let st3 := touchMeta cfg op vs.1 st2
  if 0 < cfg.tlb_size then
    { st3 with tlb := tlb_insert st3.tlb vpn (vs.1 : Int) st3.tick }
  else st3

/-- Frame lookup after a TLB miss (`main.c`, step 2): scan the frame
array for the VPN's `(int)` cast; on a hit apply the metadata updates and
refresh the TLB, otherwise take the fault path. -/
def frameAccess (cfg : Config) (op : Char) (vpn : Nat) (st : SimState) : SimState :=
  match scanIdx (fun x => x == castUIntToInt vpn) st.frames with
  | some i =>
      let st1 := touchMeta cfg op i st
      if 0 < cfg.tlb_size then
        { st1 with tlb := tlb_insert st1.tlb vpn (i : Int) st1.tick }
      else st1
  | none => faultPath cfg op vpn st

/-- One translated access (`main.c`, steps 1–2, after the operation
counter update): TLB lookup when the TLB is enabled — a hit bumps
`tlb_hits` and touches the frame metadata (guarded by the defensive range
check on the stored frame index), a miss bumps `tlb_misses` and falls
through to the frame lookup. -/
def access (cfg : Config) (op : Char) (vpn : Nat) (st : SimState) : SimState :=
  if 0 < cfg.tlb_size then
    match tlb_lookup st.tlb vpn st.tick with
    | some fr =>
        let st1 := { st with tlb_hits := st.tlb_hits + 1, tlb := fr.2 }
        if 0 ≤ fr.1 ∧ fr.1 < (st1.frames.length : Int) then
          touchMeta cfg op fr.1.toNat st1
        else st1
    | none => frameAccess cfg op vpn { st with tlb_misses := st.tlb_misses + 1 }
  else frameAccess cfg op vpn st

/-- One iteration of the simulation loop of `main.c` on a parsed trace
record `(op, addr)`: bump the tick, classify the operation (`'R'` counts a
read, `'W'` a write, anything else is skipped), derive the VPN and perform
the access. -/
def step (cfg : Config) (st : SimState) (rec : Char × Nat) : SimState :=
  let st1 := { st with tick := (st.tick + 1) % ULONG_MOD }
  if rec.1 = 'R' then
    access cfg rec.1 ((rec.2 % UINT_MOD) / PAGE_SIZE)
      { st1 with reads := st1.reads + 1 }
  else if rec.1 = 'W' then
    access cfg rec.1 ((rec.2 % UINT_MOD) / PAGE_SIZE)
      { st1 with writes := st1.writes + 1 }
  else st1

/-- The state of `main.c` right before the simulation loop: frames all
empty (`-1`), metadata and counters zeroed, TLB `calloc`-zeroed. -/
def initState (num_frames tlb_size : Nat) : SimState :=
  { frames := List.replicate num_frames (-1)
    frame_last_used := List.replicate num_frames 0
    ref_bits := List.replicate num_frames false
    dirty := List.replicate num_frames false
    fifo_index := 0
    clock_hand := 0
    tick := 0
    tlb := List.replicate tlb_size TLBEntry.zeroed
    reads := 0
    writes := 0
    page_faults := 0
    tlb_hits := 0
    tlb_misses := 0
    write_backs := 0 }

/-- Run the whole simulation loop of `main.c` over a parsed trace. -/
def run (cfg : Config) (trace : List (Char × Nat)) : SimState :=
  trace.foldl (step cfg) (initState cfg.num_frames cfg.tlb_size)

/-- The derived statistics of the final report (`main.c`, lines 353–399),
over `ℚ` in place of C `double`; each rate is `none` exactly when the
corresponding `printf` is skipped (guarded by its denominator or by the
TLB being disabled). -/
structure Report where
  hit_rate : Option ℚ
  fault_rate : Option ℚ
  tlb_hit_rate : Option ℚ
  amat : Option ℚ
deriving DecidableEq

/-- Constant `TLB_LAT` from `main.c`. -/
def TLB_LAT : ℚ := 1

/-- Constant `MEM_LAT` from `main.c`. -/
def MEM_LAT : ℚ := 100

/-- Constant `DISK_LAT` from `main.c`. -/
def DISK_LAT : ℚ := 10000000

/-- The final-stats computation of `main.c`: memory hit/fault rates only
when there was at least one counted access; TLB hit rate and AMAT only
when the TLB is enabled and saw at least one lookup (inside that branch
the code guards the fault rate again, falling back to `0`). -/
def finalReport (cfg : Config) (st : SimState) : Report :=
  let total := st.reads + st.writes
  let fault_rate : Option ℚ :=
    if 0 < total then some ((st.page_faults : ℚ) / (total : ℚ)) else none
  let hit_rate : Option ℚ :=
    if 0 < total then some (1 - (st.page_faults : ℚ) / (total : ℚ)) else none
  let tlb_total := st.tlb_hits + st.tlb_misses
  if 0 < cfg.tlb_size ∧ 0 < tlb_total then
    let tlb_hit_rate : ℚ := (st.tlb_hits : ℚ) / (tlb_total : ℚ)
    let page_fault_rate : ℚ :=
      if 0 < total then (st.page_faults : ℚ) / (total : ℚ) else 0
    let amat : ℚ :=
      tlb_hit_rate * TLB_LAT + (1 - tlb_hit_rate) * MEM_LAT +
        page_fault_rate * DISK_LAT
    ⟨hit_rate, fault_rate, some tlb_hit_rate, some amat⟩
  else ⟨hit_rate, fault_rate, none, none⟩

/-- Well-formedness of the frame array: correct length, every occupant
is the sentinel `-1` or a cast VPN in `[0, 2^20)`, and no two frames hold
the same non-empty occupant. -/
def FramesWf (nf : Nat) (frames : List Int) : Prop :=
  frames.length = nf ∧
  (∀ i < nf, frames.getD i (-1) = -1 ∨
    (0 ≤ frames.getD i (-1) ∧ frames.getD i (-1) < 2 ^ 20)) ∧
  (∀ i j, i < j → j < nf → frames.getD i (-1) ≠ -1 →
    frames.getD i (-1) ≠ frames.getD j (-1))

/-- TLB/frame consistency: correct length, and every valid entry's frame
index is a real frame whose occupant is exactly that entry's VPN. -/
def TlbWf (nf tlbSize : Nat) (frames : List Int) (tlb : List TLBEntry) : Prop :=
  tlb.length = tlbSize ∧
  ∀ k < tlbSize, (tlb.getD k default).valid = true →
    0 ≤ (tlb.getD k default).frame_index ∧
    (tlb.getD k default).frame_index < (nf : Int) ∧
    frames.getD (tlb.getD k default).frame_index.toNat (-1) =
      ((tlb.getD k default).vpn : Int)

/-- The full reachability invariant of the simulation loop. -/
def Inv (cfg : Config) (st : SimState) : Prop :=
  FramesWf cfg.num_frames st.frames ∧
  TlbWf cfg.num_frames cfg.tlb_size st.frames st.tlb ∧
  st.frame_last_used.length = cfg.num_frames ∧
  st.ref_bits.length = cfg.num_frames ∧
  st.dirty.length = cfg.num_frames ∧
  st.fifo_index < cfg.num_frames ∧
  st.clock_hand < cfg.num_frames

/-! ### List helper lemmas -/

theorem getD_set_self (l : List α) (i : Nat) (a d : α) (h : i < l.length) :
    (l.set i a).getD i d = a := by
  rw [List.getD_eq_getElem _ _ (by simpa using h)]
  simp

theorem getD_set_ne (l : List α) {i j : Nat} (hij : i ≠ j) (a d : α) :
    (l.set i a).getD j d = l.getD j d := by
  by_cases hj : j < l.length
  · rw [List.getD_eq_getElem _ _ (by simpa using hj), List.getD_eq_getElem _ _ hj]
    exact List.getElem_set_ne hij _
  · rw [List.getD_eq_default _ _ (by simpa using Nat.le_of_not_lt hj),
      List.getD_eq_default _ _ (Nat.le_of_not_lt hj)]

theorem getD_map (f : α → β) (l : List α) (k : Nat) (hk : k < l.length)
    (d : α) (d' : β) : (l.map f).getD k d' = f (l.getD k d) := by
  rw [List.getD_eq_getElem _ _ (by simpa using hk), List.getD_eq_getElem _ _ hk]
  simp

/-! ### scanIdx characterization -/

theorem scanIdx_cons (p : α → Bool) (a : α) (t : List α) :
    scanIdx p (a :: t) =
      if p a then some 0 else (scanIdx p t).map (· + 1) := rfl

theorem scanIdx_none (p : α → Bool) :
    ∀ l : List α, scanIdx p l = none → ∀ x ∈ l, p x = false := by
  intro l
  induction l with
  | nil => intro _ x hx; cases hx
  | cons a t ih =>
      intro h x hx
      by_cases hpa : p a = true
      · rw [scanIdx_cons, if_pos hpa] at h
        cases h
      · rcases List.mem_cons.mp hx with rfl | hx'
        · simpa using hpa
        · refine ih ?_ x hx'
          rw [scanIdx_cons, if_neg hpa] at h
          exact Option.map_eq_none'.mp h

theorem scanIdx_none_getD (p : α → Bool) (l : List α) (h : scanIdx p l = none)
    (j : Nat) (hj : j < l.length) (d : α) : p (l.getD j d) = false := by
  rw [List.getD_eq_getElem _ _ hj]
  exact scanIdx_none p l h _ (l.getElem_mem hj)

theorem scanIdx_some (p : α → Bool) (d : α) :
    ∀ (l : List α) (i : Nat), scanIdx p l = some i →
      i < l.length ∧ p (l.getD i d) = true ∧ ∀ j < i, p (l.getD j d) = false := by
  intro l
  induction l with
  | nil => intro i h; cases h
  | cons a t ih =>
      intro i h
      by_cases hpa : p a = true
      · rw [scanIdx_cons, if_pos hpa] at h
        cases h
        exact ⟨Nat.succ_pos _, by simpa using hpa, by intro j hj; cases hj⟩
      · rw [scanIdx_cons, if_neg hpa] at h
        rcases Option.map_eq_some'.mp h with ⟨i', hi', rfl⟩
        rcases ih i' hi' with ⟨h1, h2, h3⟩
        refine ⟨by simpa using Nat.succ_lt_succ h1, by simpa using h2, ?_⟩
        intro j hj
        match j with
        | 0 => simpa using hpa
        | j' + 1 => simpa using h3 j' (Nat.lt_of_succ_lt_succ hj)

/-! ### argmin characterization -/

theorem argminFrom_succ [Inhabited α] (key : α → Nat) (l : List α)
    (n i v : Nat) :
    argminFrom key l (n + 1) i v =
      if i < l.length then
        argminFrom key l n (i + 1)
          (if key (l.getD i default) < key (l.getD v default) then i else v)
      else v := rfl

theorem argminFrom_spec [Inhabited α] (key : α → Nat) (l : List α) :
    ∀ (n i v : Nat), l.length - i ≤ n → v < i → v < l.length →
      argminFrom key l n i v < l.length ∧
      ∀ j, (j = v ∨ (i ≤ j ∧ j < l.length)) →
        key (l.getD (argminFrom key l n i v) default) ≤ key (l.getD j default) ∧
        (key (l.getD j default) = key (l.getD (argminFrom key l n i v) default) →
          argminFrom key l n i v ≤ j) := by
  intro n
  induction n with
  | zero =>
      intro i v hn hvi hv
      refine ⟨hv, ?_⟩
      intro j hj
      rcases hj with rfl | ⟨h1, h2⟩
      · exact ⟨Nat.le_refl _, fun _ => Nat.le_refl _⟩
      · omega
  | succ n ih =>
      intro i v hn hvi hv
      by_cases hi : i < l.length
      · by_cases hlt : key (l.getD i default) < key (l.getD v default)
        · rw [argminFrom_succ, if_pos hi, if_pos hlt]
          obtain ⟨hr1, hr2⟩ := ih (i + 1) i (by omega) (by omega) hi
          obtain ⟨hle, htie⟩ := hr2 i (Or.inl rfl)
          refine ⟨hr1, ?_⟩
          intro j hj
          rcases hj with rfl | ⟨h1, h2⟩
          · exact ⟨by omega, fun heq => by omega⟩
          · rcases Nat.eq_or_lt_of_le h1 with rfl | hij
            · exact ⟨hle, htie⟩
            · exact hr2 j (Or.inr ⟨hij, h2⟩)
        · rw [argminFrom_succ, if_pos hi, if_neg hlt]
          obtain ⟨hr1, hr2⟩ := ih (i + 1) v (by omega) (by omega) hv
          obtain ⟨hle, htie⟩ := hr2 v (Or.inl rfl)
          refine ⟨hr1, ?_⟩
          intro j hj
          rcases hj with rfl | ⟨h1, h2⟩
          · exact ⟨hle, htie⟩
          · rcases Nat.eq_or_lt_of_le h1 with rfl | hij
            · have hvj := Nat.le_of_not_lt hlt
              refine ⟨by omega, ?_⟩
              intro heq
              have h3 := htie (by omega)
              omega
            · exact hr2 j (Or.inr ⟨hij, h2⟩)
      · rw [argminFrom_succ, if_neg hi]
        refine ⟨hv, ?_⟩
        intro j hj
        rcases hj with rfl | ⟨h1, h2⟩
        · exact ⟨Nat.le_refl _, fun _ => Nat.le_refl _⟩
        · omega

theorem argminIdx_spec [Inhabited α] (key : α → Nat) (l : List α)
    (hl : 0 < l.length) :
    argminIdx key l < l.length ∧
    ∀ j < l.length,
      key (l.getD (argminIdx key l) default) ≤ key (l.getD j default) ∧
      (key (l.getD j default) = key (l.getD (argminIdx key l) default) →
        argminIdx key l ≤ j) := by
  have h := argminFrom_spec key l l.length 1 0 (by omega) (by omega) hl
  refine ⟨h.1, ?_⟩
  intro j hj
  rcases Nat.eq_zero_or_pos j with rfl | hjpos
  · exact h.2 0 (Or.inl rfl)
  · exact h.2 j (Or.inr ⟨hjpos, hj⟩)

/-! ### CLOCK scan lemmas -/

theorem count_true_set_false (ref : List Bool) :
    ∀ hand : Nat, ref.getD hand false = true →
      (ref.set hand false).count true + 1 = ref.count true := by
  induction ref with
  | nil => intro hand h; simp [List.getD] at h
  | cons b t ih =>
      intro hand h
      match hand with
      | 0 =>
          simp only [List.getD_cons_zero] at h
          subst h
          simp [List.count_cons]
      | hand' + 1 =>
          simp only [List.getD_cons_succ] at h
          have := ih hand' h
          simp only [List.set_cons_succ, List.count_cons]
          omega

theorem getD_true_lt_length (ref : List Bool) (hand : Nat)
    (h : ref.getD hand false = true) : hand < ref.length := by
  by_contra hn
  rw [List.getD_eq_default _ _ (Nat.le_of_not_lt hn)] at h
  cases h

theorem clockScanF_succ (f : Nat) (ref : List Bool) (hand : Nat) :
    clockScanF (f + 1) ref hand =
      if ref.getD hand false then
        clockScanF f (ref.set hand false) ((hand + 1) % ref.length)
      else some (hand, ref, (hand + 1) % ref.length) := rfl

theorem clockScanF_congr :
    ∀ (f₁ : Nat) (ref : List Bool) (hand f₂ : Nat),
      ref.count true < f₁ → ref.count true < f₂ →
      clockScanF f₁ ref hand = clockScanF f₂ ref hand := by
  intro f₁
  induction f₁ with
  | zero => intro ref hand f₂ h₁ _; omega
  | succ f ih =>
      intro ref hand f₂ h₁ h₂
      cases f₂ with
      | zero => omega
      | succ f₂' =>
          by_cases hb : ref.getD hand false = true
          · have hcnt := count_true_set_false ref hand hb
            rw [clockScanF_succ, clockScanF_succ, if_pos hb, if_pos hb]
            exact ih _ _ _ (by omega) (by omega)
          · rw [clockScanF_succ, clockScanF_succ, if_neg hb, if_neg hb]

theorem clockScanF_isSome :
    ∀ (fuel : Nat) (ref : List Bool) (hand : Nat),
      ref.count true < fuel → (clockScanF fuel ref hand).isSome = true := by
  intro fuel
  induction fuel with
  | zero => intro ref hand h; omega
  | succ f ih =>
      intro ref hand h
      by_cases hb : ref.getD hand false = true
      · have hcnt := count_true_set_false ref hand hb
        rw [clockScanF_succ, if_pos hb]
        exact ih _ _ (by omega)
      · rw [clockScanF_succ, if_neg hb]
        rfl

theorem clockScanF_eq_clockScan (fuel : Nat) (ref : List Bool) (hand : Nat)
    (h : ref.count true < fuel) :
    clockScanF fuel ref hand = some (clockScan ref hand) := by
  have hc := clockScanF_congr fuel ref hand (ref.count true + 1) h (Nat.lt_succ_self _)
  have hs := clockScanF_isSome (ref.count true + 1) ref hand (Nat.lt_succ_self _)
  rcases Option.isSome_iff_exists.mp hs with ⟨r, hr⟩
  rw [hc, hr, clockScan, hr]
  rfl

theorem clockScanF_bounds :
    ∀ (fuel : Nat) (ref : List Bool) (hand : Nat) (r : Nat × List Bool × Nat),
      clockScanF fuel ref hand = some r → hand < ref.length →
      r.1 < ref.length ∧ r.2.1.length = ref.length ∧ r.2.2 < ref.length := by
  intro fuel
  induction fuel with
  | zero => intro ref hand r h _; cases h
  | succ f ih =>
      intro ref hand r h hh
      by_cases hb : ref.getD hand false = true
      · rw [clockScanF_succ, if_pos hb] at h
        have hlen : (ref.set hand false).length = ref.length := by simp
        have hh' : (hand + 1) % ref.length < (ref.set hand false).length := by
          rw [hlen]
          exact Nat.mod_lt _ (by omega)
        have hrec := ih _ _ _ h hh'
        rwa [hlen] at hrec
      · rw [clockScanF_succ, if_neg hb] at h
        cases h
        exact ⟨hh, rfl, Nat.mod_lt _ (by omega)⟩

theorem clockScan_bounds (ref : List Bool) (hand : Nat) (hh : hand < ref.length) :
    (clockScan ref hand).1 < ref.length ∧
    (clockScan ref hand).2.1.length = ref.length ∧
    (clockScan ref hand).2.2 < ref.length :=
  clockScanF_bounds _ ref hand _
    (clockScanF_eq_clockScan (ref.count true + 1) ref hand (Nat.lt_succ_self _)) hh

/-- C3. CLOCK termination: from any ref-bit state with the hand in
range (so capacity ≥ 1), the CLOCK scan with explicit fuel `2 × capacity`
terminates with the victim the unbounded C loop selects, the victim is a
real frame index, and when all referenced bits are initially set the scan
already succeeds within `capacity + 1` visits (one full clearing sweep
plus the selecting visit). -/
theorem clock_scan_terminates (ref : List Bool) (hand : Nat)
    (hh : hand < ref.length) :
    clockScanF (2 * ref.length) ref hand = some (clockScan ref hand) ∧
    (clockScan ref hand).1 < ref.length ∧
    ((∀ b ∈ ref, b = true) →
      clockScanF (ref.length + 1) ref hand = some (clockScan ref hand)) := by
  have hcnt : ref.count true ≤ ref.length := List.count_le_length _ _
  have hlen : 0 < ref.length := Nat.lt_of_le_of_lt (Nat.zero_le _) hh
  refine ⟨clockScanF_eq_clockScan _ _ _ (by omega), (clockScan_bounds ref hand hh).1, ?_⟩
  intro hall
  exact clockScanF_eq_clockScan _ _ _ (by omega)

/-- Witness for C3: capacity 2, both referenced bits set, hand at 0. -/
theorem clock_scan_terminates_witness :
    (0 : Nat) < ([true, true] : List Bool).length ∧
    (clockScanF (2 * ([true, true] : List Bool).length) [true, true] 0 =
        some (clockScan [true, true] 0) ∧
      (clockScan [true, true] 0).1 < ([true, true] : List Bool).length ∧
      ((∀ b ∈ ([true, true] : List Bool), b = true) →
        clockScanF (([true, true] : List Bool).length + 1) [true, true] 0 =
          some (clockScan [true, true] 0))) :=
  ⟨by decide, clock_scan_terminates [true, true] 0 (by decide)⟩

/-! ### C5: malformed records -/

/-- C5. A record whose operation character is neither `'R'` nor `'W'`
only advances the logical clock: every counter, the frame array, all
metadata and the TLB are left unchanged, and no error is raised (the step
function is total). -/
theorem malformed_record_skip (cfg : Config) (st : SimState) (op : Char)
    (addr : Nat) (hR : op ≠ 'R') (hW : op ≠ 'W') :
    step cfg st (op, addr) = { st with tick := (st.tick + 1) % ULONG_MOD } := by
  simp [step, hR, hW]

/-- Witness for C5: the record `X 0x123` on a fresh 2-frame state. -/
theorem malformed_record_skip_witness :
    step ⟨Algorithm.fifo, WritePolicy.writeThrough, 0, 2⟩ (initState 2 0) ('X', 291) =
      { initState 2 0 with tick := ((initState 2 0).tick + 1) % ULONG_MOD } :=
  malformed_record_skip _ _ 'X' 291 (by decide) (by decide)

/-! ### C6: final report rates and AMAT -/

/-- C6. The final report computes the TLB hit rate and AMAT exactly
when the TLB is enabled and at least one TLB lookup happened; the memory
hit/fault rates exactly when at least one access was counted (so no rate
is ever formed with a zero denominator); when defined, AMAT is
`tlbHitRate·TLB_LAT + (1−tlbHitRate)·MEM_LAT + faultRate·DISK_LAT`; and
on `tlbHits = 8, tlbMisses = 2, faults = 1, totalAccesses = 10` the AMAT
is `1000020.8 = 5000104/5` cycles. -/
theorem report_rates_amat :
    (∀ (cfg : Config) (st : SimState),
      ((finalReport cfg st).amat.isSome ↔
        0 < cfg.tlb_size ∧ 0 < st.tlb_hits + st.tlb_misses) ∧
      ((finalReport cfg st).tlb_hit_rate.isSome ↔
        0 < cfg.tlb_size ∧ 0 < st.tlb_hits + st.tlb_misses) ∧
      ((finalReport cfg st).fault_rate.isSome ↔ 0 < st.reads + st.writes) ∧
      ((finalReport cfg st).hit_rate.isSome ↔ 0 < st.reads + st.writes) ∧
      (0 < cfg.tlb_size → 0 < st.tlb_hits + st.tlb_misses →
        (finalReport cfg st).amat =
          some (((st.tlb_hits : ℚ) / ((st.tlb_hits : ℚ) + (st.tlb_misses : ℚ))) * TLB_LAT +
            (1 - (st.tlb_hits : ℚ) / ((st.tlb_hits : ℚ) + (st.tlb_misses : ℚ))) * MEM_LAT +
            (if 0 < st.reads + st.writes then
              (st.page_faults : ℚ) / ((st.reads : ℚ) + (st.writes : ℚ)) else 0) * DISK_LAT))) ∧
    (finalReport ⟨Algorithm.fifo, WritePolicy.writeThrough, 4, 3⟩
        { initState 3 4 with reads := 10, page_faults := 1, tlb_hits := 8, tlb_misses := 2 }).amat =
      some (5000104 / 5) := by
  constructor
  · intro cfg st
    simp only [finalReport]
    split_ifs with ht ha ha
    · refine ⟨by simp [ht.1, ht.2], by simp [ht.1, ht.2], by simp [ha], by simp [ha], ?_⟩
      intro _ _
      simp only [Option.some.injEq]
      push_cast
      ring
    · refine ⟨by simp [ht.1, ht.2], by simp [ht.1, ht.2], ?_, ?_, ?_⟩
      · exact ⟨fun h => by simp at h, fun h => absurd h ha⟩
      · exact ⟨fun h => by simp at h, fun h => absurd h ha⟩
      · intro _ _
        simp only [Option.some.injEq]
        push_cast
        ring
    · refine ⟨⟨fun h => by simp at h, fun h => absurd h ht⟩,
        ⟨fun h => by simp at h, fun h => absurd h ht⟩,
        by simp [ha], by simp [ha], fun h1 h2 => absurd ⟨h1, h2⟩ ht⟩
    · refine ⟨⟨fun h => by simp at h, fun h => absurd h ht⟩,
        ⟨fun h => by simp at h, fun h => absurd h ht⟩,
        ⟨fun h => by simp at h, fun h => absurd h ha⟩,
        ⟨fun h => by simp at h, fun h => absurd h ha⟩,
        fun h1 h2 => absurd ⟨h1, h2⟩ ht⟩
  · norm_num [finalReport, initState, TLB_LAT, MEM_LAT, DISK_LAT]

/-- Witness for C6: the spec's concrete counters make the AMAT defined. -/
theorem report_rates_amat_witness :
    0 < (⟨Algorithm.fifo, WritePolicy.writeThrough, 4, 3⟩ : Config).tlb_size ∧
    0 < ({ initState 3 4 with reads := 10, page_faults := 1, tlb_hits := 8, tlb_misses := 2 } : SimState).tlb_hits +
      ({ initState 3 4 with reads := 10, page_faults := 1, tlb_hits := 8, tlb_misses := 2 } : SimState).tlb_misses ∧
    (finalReport ⟨Algorithm.fifo, WritePolicy.writeThrough, 4, 3⟩
      { initState 3 4 with reads := 10, page_faults := 1, tlb_hits := 8, tlb_misses := 2 }).amat.isSome = true :=
  ⟨by decide, by decide, (report_rates_amat.1 _ _).1.mpr ⟨by decide, by decide⟩⟩

/-! ### Cast lemmas and C10 -/

theorem castUIntToInt_small (v : Nat) (h : v < 2 ^ 31) :
    castUIntToInt v = (v : Int) := if_pos h

theorem castIntToUInt_natCast (v : Nat) (h : v < 2 ^ 32) :
    castIntToUInt (v : Int) = v := by
  unfold castIntToUInt
  rw [Int.emod_eq_of_lt (by omega) (by exact_mod_cast h)]
  simp

theorem vpn_lt_of_addr_lt (a : Nat) (ha : a < UINT_MOD) :
    a / PAGE_SIZE < 2 ^ 20 := by
  have h4096 : 0 < PAGE_SIZE := by norm_num [PAGE_SIZE]
  rw [Nat.div_lt_iff_lt_mul h4096]
  have heq : (2 : Nat) ^ 20 * PAGE_SIZE = UINT_MOD := by norm_num [PAGE_SIZE, UINT_MOD]
  rw [heq]
  exact ha

/-- C10. Every VPN derived from a 32-bit address is at most
`2^20 − 1`, so the C cast to the `int` occupant field is value-preserving,
never collides with the empty-frame sentinel `-1`, round-trips through the
cast back to `unsigned int` used for TLB invalidation, and makes the
residency comparison `frames[i] == (int)vpn` an exact test on VPNs. -/
theorem vpn_cast_exact (addr : Nat) (h : addr < UINT_MOD) :
    addr / PAGE_SIZE ≤ 2 ^ 20 - 1 ∧
    castUIntToInt (addr / PAGE_SIZE) = ((addr / PAGE_SIZE : Nat) : Int) ∧
    castUIntToInt (addr / PAGE_SIZE) ≠ -1 ∧
    castIntToUInt (castUIntToInt (addr / PAGE_SIZE)) = addr / PAGE_SIZE ∧
    (∀ addr2 : Nat, addr2 < UINT_MOD →
      (castUIntToInt (addr2 / PAGE_SIZE) = castUIntToInt (addr / PAGE_SIZE) ↔
        addr2 / PAGE_SIZE = addr / PAGE_SIZE)) := by
  have hcore : ∀ v : Nat, v < 2 ^ 20 →
      v ≤ 2 ^ 20 - 1 ∧ castUIntToInt v = (v : Int) ∧ castUIntToInt v ≠ -1 ∧
      castIntToUInt (castUIntToInt v) = v := by
    intro v hv
    have hsmall : v < 2 ^ 31 := by omega
    refine ⟨by omega, castUIntToInt_small _ hsmall, ?_, ?_⟩
    · rw [castUIntToInt_small _ hsmall]
      omega
    · rw [castUIntToInt_small _ hsmall]
      exact castIntToUInt_natCast _ (by omega)
  obtain ⟨h1, h2, h3, h4⟩ := hcore _ (vpn_lt_of_addr_lt addr h)
  refine ⟨h1, h2, h3, h4, ?_⟩
  intro addr2 ha2
  obtain ⟨_, h2', _, _⟩ := hcore _ (vpn_lt_of_addr_lt addr2 ha2)
  rw [h2, h2']
  exact ⟨fun he => by exact_mod_cast he, fun he => by rw [he]⟩

/-- Witness for C10 at the largest 32-bit address `0xFFFFFFFF`. -/
theorem vpn_cast_exact_witness :
    (4294967295 : Nat) < UINT_MOD ∧
    (4294967295 / PAGE_SIZE ≤ 2 ^ 20 - 1 ∧
      castUIntToInt (4294967295 / PAGE_SIZE) = ((4294967295 / PAGE_SIZE : Nat) : Int) ∧
      castUIntToInt (4294967295 / PAGE_SIZE) ≠ -1 ∧
      castIntToUInt (castUIntToInt (4294967295 / PAGE_SIZE)) = 4294967295 / PAGE_SIZE ∧
      (∀ addr2 : Nat, addr2 < UINT_MOD →
        (castUIntToInt (addr2 / PAGE_SIZE) = castUIntToInt (4294967295 / PAGE_SIZE) ↔
          addr2 / PAGE_SIZE = 4294967295 / PAGE_SIZE))) :=
  ⟨by norm_num [UINT_MOD], vpn_cast_exact 4294967295 (by norm_num [UINT_MOD])⟩

/-! ### Projection and length lemmas for the step components -/

@[simp] theorem touchMeta_frames (cfg : Config) (op : Char) (i : Nat) (st : SimState) :
    (touchMeta cfg op i st).frames = st.frames := rfl

@[simp] theorem touchMeta_tlb (cfg : Config) (op : Char) (i : Nat) (st : SimState) :
    (touchMeta cfg op i st).tlb = st.tlb := rfl

@[simp] theorem touchMeta_tick (cfg : Config) (op : Char) (i : Nat) (st : SimState) :
    (touchMeta cfg op i st).tick = st.tick := rfl

@[simp] theorem touchMeta_fifo (cfg : Config) (op : Char) (i : Nat) (st : SimState) :
    (touchMeta cfg op i st).fifo_index = st.fifo_index := rfl

@[simp] theorem touchMeta_hand (cfg : Config) (op : Char) (i : Nat) (st : SimState) :
    (touchMeta cfg op i st).clock_hand = st.clock_hand := rfl

@[simp] theorem touchMeta_reads (cfg : Config) (op : Char) (i : Nat) (st : SimState) :
    (touchMeta cfg op i st).reads = st.reads := rfl

@[simp] theorem touchMeta_writes (cfg : Config) (op : Char) (i : Nat) (st : SimState) :
    (touchMeta cfg op i st).writes = st.writes := rfl

@[simp] theorem touchMeta_pf (cfg : Config) (op : Char) (i : Nat) (st : SimState) :
    (touchMeta cfg op i st).page_faults = st.page_faults := rfl

@[simp] theorem touchMeta_hits (cfg : Config) (op : Char) (i : Nat) (st : SimState) :
    (touchMeta cfg op i st).tlb_hits = st.tlb_hits := rfl

@[simp] theorem touchMeta_misses (cfg : Config) (op : Char) (i : Nat) (st : SimState) :
    (touchMeta cfg op i st).tlb_misses = st.tlb_misses := rfl

@[simp] theorem touchMeta_wb (cfg : Config) (op : Char) (i : Nat) (st : SimState) :
    (touchMeta cfg op i st).write_backs = st.write_backs := rfl

@[simp] theorem touchMeta_flu_length (cfg : Config) (op : Char) (i : Nat) (st : SimState) :
    (touchMeta cfg op i st).frame_last_used.length = st.frame_last_used.length := by
  unfold touchMeta
  dsimp only
  split <;> simp

@[simp] theorem touchMeta_ref_length (cfg : Config) (op : Char) (i : Nat) (st : SimState) :
    (touchMeta cfg op i st).ref_bits.length = st.ref_bits.length := by
  unfold touchMeta
  dsimp only
  split <;> simp

@[simp] theorem touchMeta_dirty_length (cfg : Config) (op : Char) (i : Nat) (st : SimState) :
    (touchMeta cfg op i st).dirty.length = st.dirty.length := by
  unfold touchMeta
  dsimp only
  split <;> simp

@[simp] theorem tlb_insert_length (tlb : List TLBEntry) (vpn : Nat) (fi : Int) (tick : Nat) :
    (tlb_insert tlb vpn fi tick).length = tlb.length := by
  unfold tlb_insert
  split
  · rfl
  · split
    · simp
    · split <;> simp

@[simp] theorem tlb_invalidate_length (tlb : List TLBEntry) (vpn : Nat) :
    (tlb_invalidate_vpn tlb vpn).length = tlb.length := by
  simp [tlb_invalidate_vpn]

theorem clockScanF_length :
    ∀ (fuel : Nat) (ref : List Bool) (hand : Nat) (r : Nat × List Bool × Nat),
      clockScanF fuel ref hand = some r → r.2.1.length = ref.length := by
  intro fuel
  induction fuel with
  | zero => intro ref hand r h; cases h
  | succ f ih =>
      intro ref hand r h
      by_cases hb : ref.getD hand false = true
      · rw [clockScanF_succ, if_pos hb] at h
        have := ih _ _ _ h
        simpa using this
      · rw [clockScanF_succ, if_neg hb] at h
        cases h
        rfl

@[simp] theorem clockScan_length (ref : List Bool) (hand : Nat) :
    (clockScan ref hand).2.1.length = ref.length :=
  clockScanF_length _ _ _ _
    (clockScanF_eq_clockScan (ref.count true + 1) ref hand (Nat.lt_succ_self _))

@[simp] theorem selectVictim_frames (cfg : Config) (st : SimState) :
    (selectVictim cfg st).2.frames = st.frames := by
  unfold selectVictim
  split
  · rfl
  · split <;> rfl

@[simp] theorem selectVictim_tlb (cfg : Config) (st : SimState) :
    (selectVictim cfg st).2.tlb = st.tlb := by
  unfold selectVictim
  split
  · rfl
  · split <;> rfl

@[simp] theorem selectVictim_dirty (cfg : Config) (st : SimState) :
    (selectVictim cfg st).2.dirty = st.dirty := by
  unfold selectVictim
  split
  · rfl
  · split <;> rfl

@[simp] theorem selectVictim_flu (cfg : Config) (st : SimState) :
    (selectVictim cfg st).2.frame_last_used = st.frame_last_used := by
  unfold selectVictim
  split
  · rfl
  · split <;> rfl

@[simp] theorem selectVictim_tick (cfg : Config) (st : SimState) :
    (selectVictim cfg st).2.tick = st.tick := by
  unfold selectVictim
  split
  · rfl
  · split <;> rfl

@[simp] theorem selectVictim_reads (cfg : Config) (st : SimState) :
    (selectVictim cfg st).2.reads = st.reads := by
  unfold selectVictim
  split
  · rfl
  · split <;> rfl

@[simp] theorem selectVictim_writes (cfg : Config) (st : SimState) :
    (selectVictim cfg st).2.writes = st.writes := by
  unfold selectVictim
  split
  · rfl
  · split <;> rfl

@[simp] theorem selectVictim_pf (cfg : Config) (st : SimState) :
    (selectVictim cfg st).2.page_faults = st.page_faults := by
  unfold selectVictim
  split
  · rfl
  · split <;> rfl

@[simp] theorem selectVictim_hits (cfg : Config) (st : SimState) :
    (selectVictim cfg st).2.tlb_hits = st.tlb_hits := by
  unfold selectVictim
  split
  · rfl
  · split <;> rfl

@[simp] theorem selectVictim_misses (cfg : Config) (st : SimState) :
    (selectVictim cfg st).2.tlb_misses = st.tlb_misses := by
  unfold selectVictim
  split
  · rfl
  · split <;> rfl

@[simp] theorem selectVictim_wb (cfg : Config) (st : SimState) :
    (selectVictim cfg st).2.write_backs = st.write_backs := by
  unfold selectVictim
  split
  · rfl
  · split <;> rfl

@[simp] theorem selectVictim_ref_length (cfg : Config) (st : SimState) :
    (selectVictim cfg st).2.ref_bits.length = st.ref_bits.length := by
  unfold selectVictim
  split
  · rfl
  · split
    · rfl
    · rfl
    · simp

@[simp] theorem handleEviction_frames (cfg : Config) (victim : Nat) (st : SimState) :
    (handleEviction cfg victim st).frames = st.frames := by
  unfold handleEviction
  split <;> rfl

@[simp] theorem handleEviction_flu (cfg : Config) (victim : Nat) (st : SimState) :
    (handleEviction cfg victim st).frame_last_used = st.frame_last_used := by
  unfold handleEviction
  split <;> rfl

@[simp] theorem handleEviction_ref (cfg : Config) (victim : Nat) (st : SimState) :
    (handleEviction cfg victim st).ref_bits = st.ref_bits := by
  unfold handleEviction
  split <;> rfl

@[simp] theorem handleEviction_fifo (cfg : Config) (victim : Nat) (st : SimState) :
    (handleEviction cfg victim st).fifo_index = st.fifo_index := by
  unfold handleEviction
  split <;> rfl

@[simp] theorem handleEviction_hand (cfg : Config) (victim : Nat) (st : SimState) :
    (handleEviction cfg victim st).clock_hand = st.clock_hand := by
  unfold handleEviction
  split <;> rfl

@[simp] theorem handleEviction_tick (cfg : Config) (victim : Nat) (st : SimState) :
    (handleEviction cfg victim st).tick = st.tick := by
  unfold handleEviction
  split <;> rfl

@[simp] theorem handleEviction_reads (cfg : Config) (victim : Nat) (st : SimState) :
    (handleEviction cfg victim st).reads = st.reads := by
  unfold handleEviction
  split <;> rfl

@[simp] theorem handleEviction_writes (cfg : Config) (victim : Nat) (st : SimState) :
    (handleEviction cfg victim st).writes = st.writes := by
  unfold handleEviction
  split <;> rfl

@[simp] theorem handleEviction_pf (cfg : Config) (victim : Nat) (st : SimState) :
    (handleEviction cfg victim st).page_faults = st.page_faults := by
  unfold handleEviction
  split <;> rfl

@[simp] theorem handleEviction_hits (cfg : Config) (victim : Nat) (st : SimState) :
    (handleEviction cfg victim st).tlb_hits = st.tlb_hits := by
  unfold handleEviction
  split <;> rfl

@[simp] theorem handleEviction_misses (cfg : Config) (victim : Nat) (st : SimState) :
    (handleEviction cfg victim st).tlb_misses = st.tlb_misses := by
  unfold handleEviction
  split <;> rfl

@[simp] theorem handleEviction_dirty_length (cfg : Config) (victim : Nat) (st : SimState) :
    (handleEviction cfg victim st).dirty.length = st.dirty.length := by
  unfold handleEviction
  split
  · dsimp only
    split <;> simp
  · rfl

@[simp] theorem handleEviction_tlb_length (cfg : Config) (victim : Nat) (st : SimState) :
    (handleEviction cfg victim st).tlb.length = st.tlb.length := by
  unfold handleEviction
  split
  · dsimp only
    split <;> simp
  · rfl

/-! ### C4: write-back accounting -/

theorem handleEviction_wb_count (cfg : Config) (victim : Nat) (st : SimState)
    (hwp : cfg.write_policy = WritePolicy.writeBack)
    (hocc : st.frames.getD victim (-1) ≠ -1)
    (hd : st.dirty.getD victim false = true) :
    (handleEviction cfg victim st).write_backs = st.write_backs + 1 ∧
    (handleEviction cfg victim st).dirty = st.dirty.set victim false := by
  unfold handleEviction
  rw [if_pos hocc]
  constructor
  · dsimp only
    split
    · rfl
    · next hcc => exact absurd ⟨hwp, hd⟩ hcc
  · dsimp only
    split
    · rfl
    · next hcc => exact absurd ⟨hwp, hd⟩ hcc

theorem handleEviction_wb_none (cfg : Config) (victim : Nat) (st : SimState)
    (h : st.frames.getD victim (-1) = -1 ∨ st.dirty.getD victim false = false ∨
      cfg.write_policy = WritePolicy.writeThrough) :
    (handleEviction cfg victim st).write_backs = st.write_backs ∧
    (handleEviction cfg victim st).dirty = st.dirty := by
  unfold handleEviction
  have hcond : st.frames.getD victim (-1) = -1 ∨
      ¬(cfg.write_policy = WritePolicy.writeBack ∧ st.dirty.getD victim false = true) := by
    rcases h with h | h | h
    · exact Or.inl h
    · refine Or.inr fun hc => ?_
      rw [h] at hc
      exact Bool.false_ne_true hc.2
    · refine Or.inr fun hc => ?_
      rw [h] at hc
      exact WritePolicy.noConfusion hc.1
  rcases hcond with hc | hc
  · rw [if_neg (fun hne => hne hc)]
    exact ⟨rfl, rfl⟩
  · split
    · exact ⟨rfl, rfl⟩
    · exact ⟨rfl, rfl⟩

@[simp] theorem faultPath_pf (cfg : Config) (op : Char) (vpn : Nat) (st : SimState) :
    (faultPath cfg op vpn st).page_faults = st.page_faults + 1 := by
  unfold faultPath
  dsimp only
  split <;> simp

theorem step_wb_wt (cfg : Config) (st : SimState) (r : Char × Nat)
    (hwp : cfg.write_policy = WritePolicy.writeThrough) :
    (step cfg st r).write_backs = st.write_backs := by
  have hhe : ∀ (v : Nat) (s : SimState),
      (handleEviction cfg v s).write_backs = s.write_backs :=
    fun v s => (handleEviction_wb_none cfg v s (Or.inr (Or.inr hwp))).1
  simp only [step, access, frameAccess, faultPath]
  repeat' split
  all_goals simp [hhe]

theorem step_wb_of_no_fault (cfg : Config) (st : SimState) (r : Char × Nat)
    (h : (step cfg st r).page_faults = st.page_faults) :
    (step cfg st r).write_backs = st.write_backs := by
  have hcases : ((step cfg st r).page_faults = st.page_faults ∧
      (step cfg st r).write_backs = st.write_backs) ∨
      (step cfg st r).page_faults = st.page_faults + 1 := by
    simp only [step, access, frameAccess]
    repeat' split
    all_goals
      first
        | exact Or.inl ⟨by simp, by simp⟩
        | exact Or.inr (by simp)
  rcases hcases with ⟨_, h2⟩ | hpf
  · exact h2
  · omega

theorem run_wb_wt (cfg : Config) (trace : List (Char × Nat))
    (hwp : cfg.write_policy = WritePolicy.writeThrough) :
    (run cfg trace).write_backs = 0 := by
  unfold run
  suffices h : ∀ (l : List (Char × Nat)) (s : SimState),
      (l.foldl (step cfg) s).write_backs = s.write_backs by
    rw [h]
    rfl
  intro l
  induction l with
  | nil => intro s; rfl
  | cons a t ih =>
      intro s
      rw [List.foldl_cons, ih, step_wb_wt cfg s a hwp]

/-- C4. Write-back accounting: evicting an occupied, dirty victim
frame under write-back bumps the write-back counter by exactly one and
clears that frame's dirty bit; an eviction of a clean or empty frame, or
any eviction under write-through, leaves the counter and the dirty bits
unchanged; a step that causes no page fault (in particular any write hit)
never changes the counter, so write-backs are counted only at eviction
time; and over any whole trace under write-through the counter stays 0. -/
theorem write_back_accounting :
    (∀ (cfg : Config) (victim : Nat) (st : SimState),
      cfg.write_policy = WritePolicy.writeBack →
      st.frames.getD victim (-1) ≠ -1 →
      st.dirty.getD victim false = true →
      (handleEviction cfg victim st).write_backs = st.write_backs + 1 ∧
      (handleEviction cfg victim st).dirty = st.dirty.set victim false) ∧
    (∀ (cfg : Config) (victim : Nat) (st : SimState),
      st.frames.getD victim (-1) = -1 ∨ st.dirty.getD victim false = false ∨
        cfg.write_policy = WritePolicy.writeThrough →
      (handleEviction cfg victim st).write_backs = st.write_backs ∧
      (handleEviction cfg victim st).dirty = st.dirty) ∧
    (∀ (cfg : Config) (st : SimState) (r : Char × Nat),
      (step cfg st r).page_faults = st.page_faults →
      (step cfg st r).write_backs = st.write_backs) ∧
    (∀ (cfg : Config) (trace : List (Char × Nat)),
      cfg.write_policy = WritePolicy.writeThrough →
      (run cfg trace).write_backs = 0) :=
  ⟨handleEviction_wb_count, handleEviction_wb_none, step_wb_of_no_fault,
    fun cfg trace hwp => run_wb_wt cfg trace hwp⟩

/-- Witness for C4: a dirty occupied frame evicted under write-back
counts one write-back and clears the bit; a write-through run with a
write and an eviction counts none. -/
theorem write_back_accounting_witness :
    (handleEviction ⟨Algorithm.fifo, WritePolicy.writeBack, 0, 1⟩ 0
        { initState 1 0 with frames := [5], dirty := [true] }).write_backs =
      ({ initState 1 0 with frames := [5], dirty := [true] } : SimState).write_backs + 1 ∧
    (handleEviction ⟨Algorithm.fifo, WritePolicy.writeBack, 0, 1⟩ 0
        { initState 1 0 with frames := [5], dirty := [true] }).dirty =
      ({ initState 1 0 with frames := [5], dirty := [true] } : SimState).dirty.set 0 false ∧
    (run ⟨Algorithm.fifo, WritePolicy.writeThrough, 0, 1⟩
        [('W', 0), ('R', 4096)]).write_backs = 0 :=
  ⟨(write_back_accounting.1 _ 0 _ rfl (by decide) (by decide)).1,
    (write_back_accounting.1 _ 0 _ rfl (by decide) (by decide)).2,
    write_back_accounting.2.2.2 _ [('W', 0), ('R', 4096)] rfl⟩

/-! ### scanIdx existence bridges -/

theorem scanIdx_eq_none_of (p : α → Bool) (l : List α) (d : α)
    (h : ∀ j < l.length, p (l.getD j d) = false) : scanIdx p l = none := by
  cases hs : scanIdx p l with
  | none => rfl
  | some i =>
      obtain ⟨h1, h2, _⟩ := scanIdx_some p d l i hs
      rw [h i h1] at h2
      cases h2

theorem scanIdx_isSome_of (p : α → Bool) (l : List α) (d : α)
    (h : ∃ j, j < l.length ∧ p (l.getD j d) = true) :
    ∃ i, scanIdx p l = some i := by
  cases hs : scanIdx p l with
  | none =>
      rcases h with ⟨j, hj, hp⟩
      rw [scanIdx_none_getD p l hs j hj d] at hp
      cases hp
  | some i => exact ⟨i, rfl⟩

/-! ### C9: FIFO end-to-end and the empty-slot shortcut -/

/-- C9. With FIFO, 2 frames and no TLB, the trace
`R 0x0000, R 0x1000, R 0x2000, R 0x0000` faults on all four records
(zero hits), ends with frames `[2, 0]` (the third record evicted VPN 0
for VPN 2, the fourth evicted VPN 1 because the FIFO pointer had
advanced), and — for every policy — a fault with an empty frame available
installs into the lowest-index empty frame without consulting or
advancing any policy state. -/
theorem fifo_end_to_end :
    ((run ⟨Algorithm.fifo, WritePolicy.writeThrough, 0, 2⟩
        [('R', 0), ('R', 4096), ('R', 8192), ('R', 0)]).page_faults = 4 ∧
      (run ⟨Algorithm.fifo, WritePolicy.writeThrough, 0, 2⟩
        [('R', 0), ('R', 4096), ('R', 8192), ('R', 0)]).reads = 4 ∧
      (run ⟨Algorithm.fifo, WritePolicy.writeThrough, 0, 2⟩
        [('R', 0), ('R', 4096), ('R', 8192), ('R', 0)]).writes = 0 ∧
      (run ⟨Algorithm.fifo, WritePolicy.writeThrough, 0, 2⟩
        [('R', 0), ('R', 4096), ('R', 8192), ('R', 0)]).frames = [2, 0]) ∧
    (∀ (cfg : Config) (st : SimState),
      (∃ i, i < st.frames.length ∧ st.frames.getD i (-1) = -1) →
      (selectVictim cfg st).2 = st ∧
      (selectVictim cfg st).1 < st.frames.length ∧
      st.frames.getD (selectVictim cfg st).1 (-1) = -1 ∧
      (∀ k < (selectVictim cfg st).1, st.frames.getD k (-1) ≠ -1)) := by
  constructor
  · exact ⟨by decide, by decide, by decide, by decide⟩
  · intro cfg st h
    have hex : ∃ j, j < st.frames.length ∧
        ((st.frames.getD j (-1)) == (-1 : Int)) = true := by
      rcases h with ⟨i, hi, he⟩
      exact ⟨i, hi, by simp only [he]; rfl⟩
    obtain ⟨i, hscan⟩ :=
      scanIdx_isSome_of (fun x => x == (-1 : Int)) st.frames (-1) hex
    obtain ⟨h1, h2, h3⟩ := scanIdx_some (fun x => x == (-1 : Int)) (-1) _ _ hscan
    unfold selectVictim
    rw [hscan]
    refine ⟨rfl, h1, by simpa using h2, ?_⟩
    intro k hk
    have := h3 k hk
    simpa using this

/-- Witness for C9's empty-slot shortcut: CLOCK policy, frame 1 empty. -/
theorem fifo_end_to_end_witness :
    (∃ i, i < ([5, -1] : List Int).length ∧ ([5, -1] : List Int).getD i (-1) = -1) ∧
    ((selectVictim ⟨Algorithm.clock, WritePolicy.writeThrough, 0, 2⟩
        { initState 2 0 with frames := [5, -1] }).2 =
      { initState 2 0 with frames := [5, -1] } ∧
    (selectVictim ⟨Algorithm.clock, WritePolicy.writeThrough, 0, 2⟩
        { initState 2 0 with frames := [5, -1] }).1 <
      ({ initState 2 0 with frames := [5, -1] } : SimState).frames.length ∧
    ({ initState 2 0 with frames := [5, -1] } : SimState).frames.getD
      (selectVictim ⟨Algorithm.clock, WritePolicy.writeThrough, 0, 2⟩
        { initState 2 0 with frames := [5, -1] }).1 (-1) = -1 ∧
    (∀ k < (selectVictim ⟨Algorithm.clock, WritePolicy.writeThrough, 0, 2⟩
        { initState 2 0 with frames := [5, -1] }).1,
      ({ initState 2 0 with frames := [5, -1] } : SimState).frames.getD k (-1) ≠ -1)) :=
  ⟨⟨1, by decide, by decide⟩,
    fifo_end_to_end.2 _ { initState 2 0 with frames := [5, -1] } ⟨1, by decide, by decide⟩⟩

/-! ### C7: LRU recency -/

/-- C7. Under LRU: every metadata touch (used verbatim by the TLB-hit
path, the frame-hit path and the fault placement) stamps the touched
frame's `last_used` with the current tick; with no empty frame the
selected victim minimizes `last_used` with ties broken towards the lowest
index and no other state is disturbed; and in the capacity-2 scenarios
(with and without a TLB, where the re-touch of page A is TLB-satisfied)
touching A after B and before a fault preserves A and evicts B. -/
theorem lru_recency :
    (∀ (cfg : Config) (op : Char) (i : Nat) (st : SimState),
      cfg.alg = Algorithm.lru →
      (touchMeta cfg op i st).frame_last_used = st.frame_last_used.set i st.tick) ∧
    (∀ (cfg : Config) (st : SimState),
      cfg.alg = Algorithm.lru →
      (∀ i < st.frames.length, st.frames.getD i (-1) ≠ -1) →
      0 < st.frame_last_used.length →
      (selectVictim cfg st).2 = st ∧
      (selectVictim cfg st).1 < st.frame_last_used.length ∧
      (∀ j < st.frame_last_used.length,
        st.frame_last_used.getD (selectVictim cfg st).1 0 ≤
          st.frame_last_used.getD j 0 ∧
        (st.frame_last_used.getD j 0 =
            st.frame_last_used.getD (selectVictim cfg st).1 0 →
          (selectVictim cfg st).1 ≤ j))) ∧
    ((run ⟨Algorithm.lru, WritePolicy.writeThrough, 0, 2⟩
        [('R', 0), ('R', 4096), ('R', 0), ('R', 8192)]).frames = [0, 2] ∧
      (run ⟨Algorithm.lru, WritePolicy.writeThrough, 0, 2⟩
        [('R', 0), ('R', 4096), ('R', 0), ('R', 8192)]).page_faults = 3) ∧
    ((run ⟨Algorithm.lru, WritePolicy.writeThrough, 2, 2⟩
        [('R', 0), ('R', 4096), ('R', 0), ('R', 8192)]).frames = [0, 2] ∧
      (run ⟨Algorithm.lru, WritePolicy.writeThrough, 2, 2⟩
        [('R', 0), ('R', 4096), ('R', 0), ('R', 8192)]).tlb_hits = 1 ∧
      (run ⟨Algorithm.lru, WritePolicy.writeThrough, 2, 2⟩
        [('R', 0), ('R', 4096), ('R', 0), ('R', 8192)]).page_faults = 3) := by
  refine ⟨?_, ?_, ⟨by decide, by decide⟩, ⟨by decide, by decide, by decide⟩⟩
  · intro cfg op i st halg
    unfold touchMeta
    dsimp only
    rw [if_pos halg]
  · intro cfg st halg hfull hlen
    have hnone : scanIdx (fun x => x == (-1 : Int)) st.frames = none := by
      refine scanIdx_eq_none_of _ _ (-1) ?_
      intro j hj
      simpa using hfull j hj
    unfold selectVictim
    rw [hnone, halg]
    have h := argminIdx_spec id st.frame_last_used hlen
    refine ⟨rfl, h.1, ?_⟩
    intro j hj
    simpa using h.2 j hj

/-- Witness for C7: a concrete LRU victim choice — `last_used = [3, 2]`,
all frames occupied, victim must be index 1. -/
theorem lru_recency_witness :
    ((⟨Algorithm.lru, WritePolicy.writeThrough, 0, 2⟩ : Config).alg = Algorithm.lru) ∧
    (∀ i < ([7, 8] : List Int).length, ([7, 8] : List Int).getD i (-1) ≠ -1) ∧
    ((selectVictim ⟨Algorithm.lru, WritePolicy.writeThrough, 0, 2⟩
        { initState 2 0 with frames := [7, 8], frame_last_used := [3, 2] }).2 =
      { initState 2 0 with frames := [7, 8], frame_last_used := [3, 2] } ∧
    (selectVictim ⟨Algorithm.lru, WritePolicy.writeThrough, 0, 2⟩
        { initState 2 0 with frames := [7, 8], frame_last_used := [3, 2] }).1 <
      ([3, 2] : List Nat).length ∧
    (∀ j < ([3, 2] : List Nat).length,
      ([3, 2] : List Nat).getD
        (selectVictim ⟨Algorithm.lru, WritePolicy.writeThrough, 0, 2⟩
          { initState 2 0 with frames := [7, 8], frame_last_used := [3, 2] }).1 0 ≤
        ([3, 2] : List Nat).getD j 0 ∧
      (([3, 2] : List Nat).getD j 0 =
          ([3, 2] : List Nat).getD
            (selectVictim ⟨Algorithm.lru, WritePolicy.writeThrough, 0, 2⟩
              { initState 2 0 with frames := [7, 8], frame_last_used := [3, 2] }).1 0 →
        (selectVictim ⟨Algorithm.lru, WritePolicy.writeThrough, 0, 2⟩
          { initState 2 0 with frames := [7, 8], frame_last_used := [3, 2] }).1 ≤ j))) :=
  ⟨rfl, by decide,
    lru_recency.2.1 _ { initState 2 0 with frames := [7, 8], frame_last_used := [3, 2] }
      rfl (by decide) (by decide)⟩

/-! ### C8: TLB insert discipline -/

/-- C8. For a non-empty TLB, `tlb_insert` updates in place the first
valid entry matching the VPN when one exists; otherwise fills the
lowest-index invalid slot when one exists; otherwise overwrites the valid
entry with the smallest `last_used`, ties broken towards the lowest index
— a strict LRU discipline independent of the frame eviction policy (the
function never reads the configured policy). -/
theorem tlb_insert_lru (tlb : List TLBEntry) (vpn : Nat) (fi : Int) (tick : Nat)
    (hne : 0 < tlb.length) :
    ((∃ k, k < tlb.length ∧ (tlb.getD k default).valid = true ∧
        (tlb.getD k default).vpn = vpn) →
      ∃ j, j < tlb.length ∧
        (tlb.getD j default).valid = true ∧ (tlb.getD j default).vpn = vpn ∧
        (∀ k < j, ¬((tlb.getD k default).valid = true ∧
          (tlb.getD k default).vpn = vpn)) ∧
        tlb_insert tlb vpn fi tick =
          tlb.set j { tlb.getD j default with frame_index := fi, last_used := tick }) ∧
    ((∀ k < tlb.length, ¬((tlb.getD k default).valid = true ∧
        (tlb.getD k default).vpn = vpn)) →
      (∃ k, k < tlb.length ∧ (tlb.getD k default).valid = false) →
      ∃ j, j < tlb.length ∧
        (tlb.getD j default).valid = false ∧
        (∀ k < j, (tlb.getD k default).valid = true) ∧
        tlb_insert tlb vpn fi tick = tlb.set j ⟨true, vpn, fi, tick⟩) ∧
    ((∀ k < tlb.length, ¬((tlb.getD k default).valid = true ∧
        (tlb.getD k default).vpn = vpn)) →
      (∀ k < tlb.length, (tlb.getD k default).valid = true) →
      ∃ j, j < tlb.length ∧
        (∀ k < tlb.length,
          (tlb.getD j default).last_used ≤ (tlb.getD k default).last_used) ∧
        (∀ k < tlb.length,
          (tlb.getD k default).last_used = (tlb.getD j default).last_used → j ≤ k) ∧
        tlb_insert tlb vpn fi tick = tlb.set j ⟨true, vpn, fi, tick⟩) := by
  have hlen0 : ¬ tlb.length = 0 := by omega
  have hnomatch : (∀ k < tlb.length, ¬((tlb.getD k default).valid = true ∧
      (tlb.getD k default).vpn = vpn)) →
      scanIdx (fun e : TLBEntry => e.valid && e.vpn == vpn) tlb = none := by
    intro hno
    refine scanIdx_eq_none_of _ _ default ?_
    intro k hk
    have hn := hno k hk
    cases hval : (tlb.getD k default).valid with
    | false => simp only [hval, Bool.false_and]
    | true =>
        have hne2 : ¬ (tlb.getD k default).vpn = vpn := fun he => hn ⟨hval, he⟩
        simp only [hval, Bool.true_and]
        simpa using hne2
  refine ⟨?_, ?_, ?_⟩
  · intro hex
    have hex' : ∃ j, j < tlb.length ∧
        ((tlb.getD j default).valid && (tlb.getD j default).vpn == vpn) = true := by
      rcases hex with ⟨k, hk, hv, he⟩
      exact ⟨k, hk, by simp only [hv, he, Bool.true_and]; simp⟩
    obtain ⟨j, hscan⟩ :=
      scanIdx_isSome_of (fun e : TLBEntry => e.valid && e.vpn == vpn) tlb default hex'
    obtain ⟨h1, h2, h3⟩ := scanIdx_some (fun e : TLBEntry => e.valid && e.vpn == vpn)
      default _ _ hscan
    have h2' := Bool.and_eq_true_iff.mp h2
    refine ⟨j, h1, h2'.1, by simpa using h2'.2, ?_, ?_⟩
    · intro k hk hcontra
      have hfk := h3 k hk
      rw [hcontra.1] at hfk
      simp only [hcontra.2, Bool.true_and] at hfk
      simp at hfk
    · unfold tlb_insert
      rw [if_neg hlen0, hscan]
  · intro hno hinv
    have hnone := hnomatch hno
    have hinv' : ∃ j, j < tlb.length ∧ (!(tlb.getD j default).valid) = true := by
      rcases hinv with ⟨k, hk, hv⟩
      exact ⟨k, hk, by simp only [hv]; rfl⟩
    obtain ⟨j, hscan⟩ :=
      scanIdx_isSome_of (fun e : TLBEntry => !e.valid) tlb default hinv'
    obtain ⟨h1, h2, h3⟩ := scanIdx_some (fun e : TLBEntry => !e.valid) default _ _ hscan
    refine ⟨j, h1, by simpa using h2, ?_, ?_⟩
    · intro k hk
      have := h3 k hk
      simpa using this
    · unfold tlb_insert
      rw [if_neg hlen0, hnone, hscan]
  · intro hno hall
    have hnone := hnomatch hno
    have hnone2 : scanIdx (fun e : TLBEntry => !e.valid) tlb = none := by
      refine scanIdx_eq_none_of _ _ default ?_
      intro k hk
      simp only [hall k hk]
      rfl
    obtain ⟨h1, h2⟩ := argminIdx_spec TLBEntry.last_used tlb hne
    refine ⟨argminIdx TLBEntry.last_used tlb, h1, ?_, ?_, ?_⟩
    · intro k hk
      exact (h2 k hk).1
    · intro k hk
      exact (h2 k hk).2
    · unfold tlb_insert
      rw [if_neg hlen0, hnone, hnone2]

/-- Witness for C8: a full, valid, non-matching TLB — the inserted entry
overwrites index 1, the first entry of minimal `last_used`. -/
theorem tlb_insert_lru_witness :
    (0 < ([⟨true, 3, 0, 5⟩, ⟨true, 4, 1, 2⟩] : List TLBEntry).length) ∧
    (∃ j, j < ([⟨true, 3, 0, 5⟩, ⟨true, 4, 1, 2⟩] : List TLBEntry).length ∧
      (∀ k < ([⟨true, 3, 0, 5⟩, ⟨true, 4, 1, 2⟩] : List TLBEntry).length,
        (([⟨true, 3, 0, 5⟩, ⟨true, 4, 1, 2⟩] : List TLBEntry).getD j default).last_used ≤
          (([⟨true, 3, 0, 5⟩, ⟨true, 4, 1, 2⟩] : List TLBEntry).getD k default).last_used) ∧
      (∀ k < ([⟨true, 3, 0, 5⟩, ⟨true, 4, 1, 2⟩] : List TLBEntry).length,
        (([⟨true, 3, 0, 5⟩, ⟨true, 4, 1, 2⟩] : List TLBEntry).getD k default).last_used =
          (([⟨true, 3, 0, 5⟩, ⟨true, 4, 1, 2⟩] : List TLBEntry).getD j default).last_used →
            j ≤ k) ∧
      tlb_insert [⟨true, 3, 0, 5⟩, ⟨true, 4, 1, 2⟩] 9 0 10 =
        ([⟨true, 3, 0, 5⟩, ⟨true, 4, 1, 2⟩] : List TLBEntry).set j ⟨true, 9, 0, 10⟩) :=
  ⟨by decide,
    (tlb_insert_lru [⟨true, 3, 0, 5⟩, ⟨true, 4, 1, 2⟩] 9 0 10 (by decide)).2.2
      (by decide) (by decide)⟩

/-! ### C1/C2: invariant machinery -/

theorem tlb_lookup_char (tlb : List TLBEntry) (vpn tick : Nat) (fi : Int)
    (tlb' : List TLBEntry) (h : tlb_lookup tlb vpn tick = some (fi, tlb')) :
    ∃ j, j < tlb.length ∧ (tlb.getD j default).valid = true ∧
      (tlb.getD j default).vpn = vpn ∧
      fi = (tlb.getD j default).frame_index ∧
      tlb' = tlb.set j { tlb.getD j default with last_used := tick } := by
  unfold tlb_lookup at h
  cases hscan : scanIdx (fun e : TLBEntry => e.valid && e.vpn == vpn) tlb with
  | none => rw [hscan] at h; cases h
  | some j =>
      rw [hscan] at h
      obtain ⟨h1, h2, _⟩ := scanIdx_some (fun e : TLBEntry => e.valid && e.vpn == vpn)
        default _ _ hscan
      have h2' := Bool.and_eq_true_iff.mp h2
      injection h with hpair
      injection hpair with hfi htlb
      exact ⟨j, h1, h2'.1, by simpa using h2'.2, hfi.symm, htlb.symm⟩

theorem tlb_invalidate_getD (tlb : List TLBEntry) (v : Nat) (k : Nat)
    (hk : k < tlb.length) :
    (tlb_invalidate_vpn tlb v).getD k default =
      if (tlb.getD k default).valid && (tlb.getD k default).vpn == v then
        { tlb.getD k default with valid := false }
      else tlb.getD k default := by
  unfold tlb_invalidate_vpn
  rw [getD_map _ _ k hk default default]

theorem tlb_invalidate_valid (tlb : List TLBEntry) (v k : Nat)
    (hk : k < tlb.length)
    (h : ((tlb_invalidate_vpn tlb v).getD k default).valid = true) :
    (tlb_invalidate_vpn tlb v).getD k default = tlb.getD k default ∧
    (tlb.getD k default).vpn ≠ v := by
  rw [tlb_invalidate_getD tlb v k hk] at h ⊢
  by_cases hcond : ((tlb.getD k default).valid && (tlb.getD k default).vpn == v) = true
  · rw [if_pos hcond] at h
    cases h
  · rw [if_neg hcond] at h ⊢
    refine ⟨rfl, ?_⟩
    intro he
    refine hcond ?_
    rw [h, he]
    simp

theorem tlb_insert_shape (tlb : List TLBEntry) (vpn : Nat) (fi : Int) (tick : Nat)
    (h0 : 0 < tlb.length) :
    ∃ m e, m < tlb.length ∧ TLBEntry.valid e = true ∧ TLBEntry.vpn e = vpn ∧
      TLBEntry.frame_index e = fi ∧ tlb_insert tlb vpn fi tick = tlb.set m e := by
  unfold tlb_insert
  rw [if_neg (by omega)]
  cases h1 : scanIdx (fun e : TLBEntry => e.valid && e.vpn == vpn) tlb with
  | some i =>
      obtain ⟨hlen, hpred, _⟩ := scanIdx_some (fun e : TLBEntry => e.valid && e.vpn == vpn)
        default _ _ h1
      have hp := Bool.and_eq_true_iff.mp hpred
      refine ⟨i, { tlb.getD i default with frame_index := fi, last_used := tick },
        hlen, hp.1, ?_, rfl, rfl⟩
      simpa using hp.2
  | none =>
      cases h2 : scanIdx (fun e : TLBEntry => !e.valid) tlb with
      | some i =>
          obtain ⟨hlen, _, _⟩ := scanIdx_some (fun e : TLBEntry => !e.valid)
            default _ _ h2
          exact ⟨i, ⟨true, vpn, fi, tick⟩, hlen, rfl, rfl, rfl, rfl⟩
      | none =>
          exact ⟨argminIdx TLBEntry.last_used tlb, ⟨true, vpn, fi, tick⟩,
            (argminIdx_spec TLBEntry.last_used tlb h0).1, rfl, rfl, rfl, rfl⟩

theorem tlbWf_lookup (nf ts : Nat) (frames : List Int) (tlb : List TLBEntry)
    (vpn tick : Nat) (fi : Int) (tlb' : List TLBEntry)
    (hwf : TlbWf nf ts frames tlb) (h : tlb_lookup tlb vpn tick = some (fi, tlb')) :
    TlbWf nf ts frames tlb' := by
  obtain ⟨j, hj, hv, hvpn, hfi, rfl⟩ := tlb_lookup_char tlb vpn tick fi tlb' h
  obtain ⟨hlen, hwf2⟩ := hwf
  refine ⟨by simpa using hlen, ?_⟩
  intro k hk hvalid
  by_cases hkj : j = k
  · subst hkj
    rw [getD_set_self _ _ _ _ hj] at hvalid ⊢
    exact hwf2 j (hlen ▸ hj) hvalid
  · rw [getD_set_ne _ hkj _ _] at hvalid ⊢
    exact hwf2 k hk hvalid

theorem tlbWf_insert (nf ts : Nat) (frames : List Int) (tlb : List TLBEntry)
    (vpn : Nat) (fi : Int) (tick : Nat)
    (hwf : TlbWf nf ts frames tlb) (h0 : 0 < tlb.length)
    (hfi0 : 0 ≤ fi) (hfin : fi < (nf : Int))
    (hmap : frames.getD fi.toNat (-1) = (vpn : Int)) :
    TlbWf nf ts frames (tlb_insert tlb vpn fi tick) := by
  obtain ⟨m, e, hm, hev, hevpn, hefi, heq⟩ := tlb_insert_shape tlb vpn fi tick h0
  obtain ⟨hlen, hwf2⟩ := hwf
  rw [heq]
  refine ⟨by simpa using hlen, ?_⟩
  intro k hk hvalid
  by_cases hkm : m = k
  · subst hkm
    rw [getD_set_self _ _ _ _ hm] at hvalid ⊢
    rw [hefi, hevpn]
    exact ⟨hfi0, hfin, hmap⟩
  · rw [getD_set_ne _ hkm _ _] at hvalid ⊢
    exact hwf2 k hk hvalid

theorem tlbWf_invalidate (nf ts : Nat) (frames : List Int) (tlb : List TLBEntry)
    (v : Nat) (hwf : TlbWf nf ts frames tlb) :
    TlbWf nf ts frames (tlb_invalidate_vpn tlb v) := by
  obtain ⟨hlen, hwf2⟩ := hwf
  refine ⟨by simpa using hlen, ?_⟩
  intro k hk hvalid
  have hk' : k < tlb.length := by omega
  obtain ⟨heq, _⟩ := tlb_invalidate_valid tlb v k hk' hvalid
  rw [heq] at hvalid ⊢
  exact hwf2 k hk hvalid

theorem framesWf_set (nf : Nat) (frames : List Int) (victim : Nat) (vpn : Nat)
    (hwf : FramesWf nf frames) (hvm : victim < nf) (hvpn : vpn < 2 ^ 20)
    (hfresh : ∀ i < nf, frames.getD i (-1) ≠ (vpn : Int)) :
    FramesWf nf (frames.set victim ((vpn : Nat) : Int)) := by
  obtain ⟨hlen, hocc, hdup⟩ := hwf
  have hvm' : victim < frames.length := by omega
  refine ⟨by simpa using hlen, ?_, ?_⟩
  · intro i hi
    by_cases hiv : victim = i
    · subst hiv
      rw [getD_set_self _ _ _ _ hvm']
      right
      constructor
      · exact Int.natCast_nonneg _
      · exact_mod_cast hvpn
    · rw [getD_set_ne _ hiv _ _]
      exact hocc i hi
  · intro i j hij hj hne
    by_cases hiv : victim = i
    · subst hiv
      rw [getD_set_self _ _ _ _ hvm'] at hne ⊢
      rw [getD_set_ne _ (by omega : victim ≠ j) _ _]
      intro heq
      exact hfresh j hj heq.symm
    · rw [getD_set_ne _ hiv _ _] at hne ⊢
      by_cases hjv : victim = j
      · subst hjv
        rw [getD_set_self _ _ _ _ hvm']
        exact hfresh i (by omega)
      · rw [getD_set_ne _ hjv _ _]
        exact hdup i j hij hj hne

theorem selectVictim_inv (cfg : Config) (st : SimState)
    (hInv : Inv cfg st) (hnf : 0 < cfg.num_frames) :
    (selectVictim cfg st).1 < cfg.num_frames ∧ Inv cfg (selectVictim cfg st).2 := by
  obtain ⟨⟨hflen, hfocc, hfdup⟩, hTlb, hflu, href, hdirty, hfifo, hhand⟩ := hInv
  unfold selectVictim
  cases hscan : scanIdx (fun x => x == (-1 : Int)) st.frames with
  | some i =>
      obtain ⟨h1, _, _⟩ := scanIdx_some (fun x => x == (-1 : Int)) (-1) _ _ hscan
      dsimp only
      exact ⟨by omega, ⟨⟨hflen, hfocc, hfdup⟩, hTlb, hflu, href, hdirty, hfifo, hhand⟩⟩
  | none =>
      cases halg : cfg.alg with
      | fifo =>
          dsimp only
          refine ⟨hfifo, ⟨hflen, hfocc, hfdup⟩, hTlb, hflu, href, hdirty, ?_, hhand⟩
          rw [hflen]
          exact Nat.mod_lt _ hnf
      | lru =>
          dsimp only
          have h := argminIdx_spec id st.frame_last_used (by omega)
          exact ⟨by omega,
            ⟨⟨hflen, hfocc, hfdup⟩, hTlb, hflu, href, hdirty, hfifo, hhand⟩⟩
      | clock =>
          dsimp only
          have hb := clockScan_bounds st.ref_bits st.clock_hand (by omega)
          refine ⟨by omega,
            ⟨⟨hflen, hfocc, hfdup⟩, hTlb, hflu, ?_, hdirty, hfifo, ?_⟩⟩
          · dsimp only
            rw [clockScan_length]
            exact href
          · dsimp only
            omega

theorem handleEviction_inv (cfg : Config) (victim : Nat) (st : SimState)
    (hInv : Inv cfg st) (hvm : victim < cfg.num_frames) :
    Inv cfg (handleEviction cfg victim st) ∧
    ∀ k < cfg.tlb_size,
      ((handleEviction cfg victim st).tlb.getD k default).valid = true →
      (handleEviction cfg victim st).tlb.getD k default = st.tlb.getD k default ∧
      ((handleEviction cfg victim st).tlb.getD k default).frame_index.toNat ≠ victim := by
  obtain ⟨⟨hflen, hfocc, hfdup⟩, ⟨htlen, htwf⟩, hflu, href, hdirty, hfifo, hhand⟩ := hInv
  unfold handleEviction
  by_cases hocc : st.frames.getD victim (-1) ≠ -1
  · rw [if_pos hocc]
    have hoccb : 0 ≤ st.frames.getD victim (-1) ∧ st.frames.getD victim (-1) < 2 ^ 20 := by
      rcases hfocc victim hvm with h | h
      · exact absurd h hocc
      · exact h
    constructor
    · refine ⟨⟨hflen, hfocc, hfdup⟩, ?_, hflu, href, ?_, hfifo, hhand⟩
      · dsimp only
        split
        · exact tlbWf_invalidate _ _ _ _ _ ⟨htlen, htwf⟩
        · exact ⟨htlen, htwf⟩
      · dsimp only
        split
        · simpa using hdirty
        · exact hdirty
    · intro k hk hval
      by_cases hts : 0 < cfg.tlb_size
      · dsimp only at hval ⊢
        rw [if_pos hts] at hval ⊢
        have hk' : k < st.tlb.length := by omega
        obtain ⟨heq, hne⟩ := tlb_invalidate_valid _ _ _ hk' hval
        rw [heq] at hval ⊢
        refine ⟨rfl, ?_⟩
        intro hcontra
        have hw := htwf k hk hval
        rw [hcontra] at hw
        have hvpnk : (st.tlb.getD k default).vpn < 2 ^ 20 := by
          have := hw.2.2
          omega
        refine hne ?_
        rw [hw.2.2]
        exact (castIntToUInt_natCast _ (by omega)).symm
      · exact absurd hk (by omega)
  · rw [if_neg hocc]
    have hocc' : st.frames.getD victim (-1) = -1 := not_not.mp hocc
    refine ⟨⟨⟨hflen, hfocc, hfdup⟩, ⟨htlen, htwf⟩, hflu, href, hdirty, hfifo, hhand⟩, ?_⟩
    intro k hk hval
    refine ⟨rfl, ?_⟩
    intro hcontra
    have hw := htwf k hk hval
    rw [hcontra, hocc'] at hw
    omega

theorem faultPath_inv (cfg : Config) (op : Char) (vpn : Nat) (st : SimState)
    (hInv : Inv cfg st) (hnf : 0 < cfg.num_frames) (hvpn : vpn < 2 ^ 20)
    (hfresh : ∀ i < cfg.num_frames, st.frames.getD i (-1) ≠ castUIntToInt vpn) :
    Inv cfg (faultPath cfg op vpn st) := by
  have hcast : castUIntToInt vpn = ((vpn : Nat) : Int) :=
    castUIntToInt_small _ (by omega)
  have hfresh' : ∀ i < cfg.num_frames, st.frames.getD i (-1) ≠ ((vpn : Nat) : Int) := by
    intro i hi
    rw [← hcast]
    exact hfresh i hi
  have hInv0 : Inv cfg { st with page_faults := st.page_faults + 1 } := hInv
  obtain ⟨hv1, hInv1⟩ := selectVictim_inv cfg _ hInv0 hnf
  obtain ⟨hInv2, hK⟩ := handleEviction_inv cfg
    (selectVictim cfg { st with page_faults := st.page_faults + 1 }).1
    (selectVictim cfg { st with page_faults := st.page_faults + 1 }).2 hInv1 hv1
  obtain ⟨hF2, hT2, hflu2, href2, hdirty2, hfifo2, hhand2⟩ := hInv2
  have hfr1 : (handleEviction cfg
      (selectVictim cfg { st with page_faults := st.page_faults + 1 }).1
      (selectVictim cfg { st with page_faults := st.page_faults + 1 }).2).frames =
      st.frames := by
    simp
  have htl1 : (handleEviction cfg
      (selectVictim cfg { st with page_faults := st.page_faults + 1 }).1
      (selectVictim cfg { st with page_faults := st.page_faults + 1 }).2).tlb.length =
      cfg.tlb_size := by
    rw [handleEviction_tlb_length, selectVictim_tlb]
    exact hInv.2.1.1
  have hframesWf2 : FramesWf cfg.num_frames
      ((handleEviction cfg
        (selectVictim cfg { st with page_faults := st.page_faults + 1 }).1
        (selectVictim cfg { st with page_faults := st.page_faults + 1 }).2).frames.set
        (selectVictim cfg { st with page_faults := st.page_faults + 1 }).1
        (castUIntToInt vpn)) := by
    rw [hfr1, hcast]
    exact framesWf_set _ _ _ _ hInv.1 hv1 hvpn hfresh'
  have htlbWf2 : TlbWf cfg.num_frames cfg.tlb_size
      ((handleEviction cfg
        (selectVictim cfg { st with page_faults := st.page_faults + 1 }).1
        (selectVictim cfg { st with page_faults := st.page_faults + 1 }).2).frames.set
        (selectVictim cfg { st with page_faults := st.page_faults + 1 }).1
        (castUIntToInt vpn))
      (handleEviction cfg
        (selectVictim cfg { st with page_faults := st.page_faults + 1 }).1
        (selectVictim cfg { st with page_faults := st.page_faults + 1 }).2).tlb := by
    refine ⟨htl1, ?_⟩
    intro k hk hval
    obtain ⟨heqk, hnev⟩ := hK k hk hval
    have hvs_tlb : (selectVictim cfg { st with page_faults := st.page_faults + 1 }).2.tlb =
        st.tlb := by
      simp
    rw [heqk, hvs_tlb] at hval ⊢
    rw [heqk, hvs_tlb] at hnev
    obtain ⟨h0, h1, h2⟩ := hInv.2.1.2 k hk hval
    refine ⟨h0, h1, ?_⟩
    rw [hfr1, getD_set_ne _ (fun he => hnev he.symm) _ _]
    exact h2
  have hltset : (selectVictim cfg { st with page_faults := st.page_faults + 1 }).1 <
      (handleEviction cfg
        (selectVictim cfg { st with page_faults := st.page_faults + 1 }).1
        (selectVictim cfg { st with page_faults := st.page_faults + 1 }).2).frames.length := by
    rw [hfr1, hInv.1.1]
    exact hv1
  unfold faultPath
  dsimp only
  split
  · rename_i hts
    refine ⟨?_, ?_, ?_, ?_, ?_, ?_, ?_⟩
    · simp only [touchMeta_frames]
      exact hframesWf2
    · simp only [touchMeta_frames, touchMeta_tlb]
      refine tlbWf_insert _ _ _ _ _ _ _ htlbWf2 ?_ ?_ ?_ ?_
      · rw [htl1]
        exact hts
      · exact Int.natCast_nonneg _
      · exact_mod_cast hv1
      · rw [Int.toNat_natCast, getD_set_self _ _ _ _ hltset, hcast]
    · simp only [touchMeta_flu_length]
      exact hflu2
    · simp only [touchMeta_ref_length]
      exact href2
    · simp only [touchMeta_dirty_length]
      exact hdirty2
    · simp only [touchMeta_fifo]
      exact hfifo2
    · simp only [touchMeta_hand]
      exact hhand2
  · refine ⟨?_, ?_, ?_, ?_, ?_, ?_, ?_⟩
    · simp only [touchMeta_frames]
      exact hframesWf2
    · simp only [touchMeta_frames, touchMeta_tlb]
      exact htlbWf2
    · simp only [touchMeta_flu_length]
      exact hflu2
    · simp only [touchMeta_ref_length]
      exact href2
    · simp only [touchMeta_dirty_length]
      exact hdirty2
    · simp only [touchMeta_fifo]
      exact hfifo2
    · simp only [touchMeta_hand]
      exact hhand2

theorem frameAccess_inv (cfg : Config) (op : Char) (vpn : Nat) (st : SimState)
    (hInv : Inv cfg st) (hnf : 0 < cfg.num_frames) (hvpn : vpn < 2 ^ 20) :
    Inv cfg (frameAccess cfg op vpn st) := by
  unfold frameAccess
  cases hscan : scanIdx (fun x => x == castUIntToInt vpn) st.frames with
  | some i =>
      dsimp only
      obtain ⟨h1, h2, _⟩ := scanIdx_some (fun x => x == castUIntToInt vpn) (-1) _ _ hscan
      have heqv : st.frames.getD i (-1) = castUIntToInt vpn := by simpa using h2
      obtain ⟨hF, hT, hflu, href, hdirty, hfifo, hhand⟩ := hInv
      have hcast : castUIntToInt vpn = ((vpn : Nat) : Int) :=
        castUIntToInt_small _ (by omega)
      split
      · rename_i hts
        refine ⟨?_, ?_, ?_, ?_, ?_, ?_, ?_⟩
        · simp only [touchMeta_frames]
          exact hF
        · simp only [touchMeta_frames, touchMeta_tlb]
          refine tlbWf_insert _ _ _ _ _ _ _ hT ?_ ?_ ?_ ?_
          · rw [hT.1]
            exact hts
          · exact Int.natCast_nonneg _
          · have hilt : i < cfg.num_frames := by
              have := hF.1
              omega
            exact_mod_cast hilt
          · rw [Int.toNat_natCast, heqv, hcast]
        · simp only [touchMeta_flu_length]
          exact hflu
        · simp only [touchMeta_ref_length]
          exact href
        · simp only [touchMeta_dirty_length]
          exact hdirty
        · simp only [touchMeta_fifo]
          exact hfifo
        · simp only [touchMeta_hand]
          exact hhand
      · refine ⟨?_, ?_, ?_, ?_, ?_, ?_, ?_⟩
        · simp only [touchMeta_frames]
          exact hF
        · simp only [touchMeta_frames, touchMeta_tlb]
          exact hT
        · simp only [touchMeta_flu_length]
          exact hflu
        · simp only [touchMeta_ref_length]
          exact href
        · simp only [touchMeta_dirty_length]
          exact hdirty
        · simp only [touchMeta_fifo]
          exact hfifo
        · simp only [touchMeta_hand]
          exact hhand
  | none =>
      dsimp only
      refine faultPath_inv cfg op vpn st hInv hnf hvpn ?_
      intro i hi
      have := scanIdx_none_getD (fun x => x == castUIntToInt vpn) st.frames hscan i
        (by rw [hInv.1.1]; exact hi) (-1)
      simpa using this

theorem access_inv (cfg : Config) (op : Char) (vpn : Nat) (st : SimState)
    (hInv : Inv cfg st) (hnf : 0 < cfg.num_frames) (hvpn : vpn < 2 ^ 20) :
    Inv cfg (access cfg op vpn st) := by
  unfold access
  split
  · rename_i hts
    cases hlk : tlb_lookup st.tlb vpn st.tick with
    | some fr =>
        dsimp only
        obtain ⟨hF, hT, hflu, href, hdirty, hfifo, hhand⟩ := hInv
        have hT' : TlbWf cfg.num_frames cfg.tlb_size st.frames fr.2 :=
          tlbWf_lookup _ _ _ _ _ _ fr.1 fr.2 hT hlk
        split
        · refine ⟨?_, ?_, ?_, ?_, ?_, ?_, ?_⟩
          · simp only [touchMeta_frames]
            exact hF
          · simp only [touchMeta_frames, touchMeta_tlb]
            exact hT'
          · simp only [touchMeta_flu_length]
            exact hflu
          · simp only [touchMeta_ref_length]
            exact href
          · simp only [touchMeta_dirty_length]
            exact hdirty
          · simp only [touchMeta_fifo]
            exact hfifo
          · simp only [touchMeta_hand]
            exact hhand
        · exact ⟨hF, hT', hflu, href, hdirty, hfifo, hhand⟩
    | none =>
        dsimp only
        exact frameAccess_inv cfg op vpn _ hInv hnf hvpn
  · exact frameAccess_inv cfg op vpn st hInv hnf hvpn

theorem inv_step (cfg : Config) (st : SimState) (r : Char × Nat)
    (hInv : Inv cfg st) (hnf : 0 < cfg.num_frames) :
    Inv cfg (step cfg st r) := by
  have hvpn : (r.2 % UINT_MOD) / PAGE_SIZE < 2 ^ 20 :=
    vpn_lt_of_addr_lt _ (Nat.mod_lt _ (by norm_num [UINT_MOD]))
  unfold step
  dsimp only
  split
  · exact access_inv _ _ _ _ hInv hnf hvpn
  · split
    · exact access_inv _ _ _ _ hInv hnf hvpn
    · exact hInv

theorem inv_init (cfg : Config) (hnf : 0 < cfg.num_frames) :
    Inv cfg (initState cfg.num_frames cfg.tlb_size) := by
  have hrep : ∀ i : Nat, (List.replicate cfg.num_frames (-1 : Int)).getD i (-1) = -1 := by
    intro i
    by_cases h : i < cfg.num_frames
    · rw [List.getD_eq_getElem _ _ (by simpa using h)]
      simp
    · rw [List.getD_eq_default _ _ (by simpa using Nat.le_of_not_lt h)]
  have hrepT : ∀ k : Nat,
      ((List.replicate cfg.tlb_size TLBEntry.zeroed).getD k default).valid = false := by
    intro k
    by_cases h : k < cfg.tlb_size
    · rw [List.getD_eq_getElem _ _ (by simpa using h)]
      simp [TLBEntry.zeroed]
    · rw [List.getD_eq_default _ _ (by simpa using Nat.le_of_not_lt h)]
      rfl
  unfold initState
  refine ⟨⟨by simp, ?_, ?_⟩, ⟨by simp, ?_⟩, by simp, by simp, by simp, hnf, hnf⟩
  · intro i _
    exact Or.inl (hrep i)
  · intro i j _ _ hne
    exact absurd (hrep i) hne
  · intro k _ hval
    rw [hrepT k] at hval
    cases hval

theorem inv_run (cfg : Config) (trace : List (Char × Nat)) (hnf : 0 < cfg.num_frames) :
    Inv cfg (run cfg trace) := by
  unfold run
  have h : ∀ (l : List (Char × Nat)) (s : SimState),
      Inv cfg s → Inv cfg (l.foldl (step cfg) s) := by
    intro l
    induction l with
    | nil => intro s hs; exact hs
    | cons a t ih =>
        intro s hs
        rw [List.foldl_cons]
        exact ih _ (inv_step cfg s a hs hnf)
  exact h trace _ (inv_init cfg hnf)

theorem framesWf_nodup (nf : Nat) (frames : List Int) (hwf : FramesWf nf frames) :
    (frames.filter (fun x => !(x == (-1 : Int)))).Nodup := by
  obtain ⟨hlen, _, hdup⟩ := hwf
  have hpair : List.Pairwise (fun a b : Int => a = -1 ∨ a ≠ b) frames := by
    rw [List.pairwise_iff_getElem]
    intro i j hi hj hij
    by_cases hne : frames[i] = -1
    · exact Or.inl hne
    · right
      have h1 : frames.getD i (-1) = frames[i] := List.getD_eq_getElem _ _ hi
      have h2 : frames.getD j (-1) = frames[j] := List.getD_eq_getElem _ _ hj
      have h3 := hdup i j hij (by omega) (by rw [h1]; exact hne)
      rw [h1, h2] at h3
      exact h3
  have hfil := List.Pairwise.filter (fun x : Int => !(x == (-1 : Int))) hpair
  refine List.Pairwise.imp_of_mem ?_ hfil
  intro a b ha _ hab
  rcases hab with h | h
  · have hmem := List.mem_filter.mp ha
    rw [h] at hmem
    simp at hmem
  · exact h

/-- C1. TLB consistency: after any trace processed from the initial
state (capacity ≥ 1), every valid TLB entry holds a frame index in range
whose frame's occupant equals the entry's VPN — a stale valid entry is
never observable; moreover during eviction handling of an occupied
victim, the outgoing VPN has no valid TLB entry left, i.e. the entry is
invalidated before the new occupant is installed. -/
theorem tlb_consistency :
    (∀ (cfg : Config) (trace : List (Char × Nat)), 0 < cfg.num_frames →
      ∀ k < cfg.tlb_size,
        (((run cfg trace).tlb.getD k default).valid = true →
          0 ≤ ((run cfg trace).tlb.getD k default).frame_index ∧
          ((run cfg trace).tlb.getD k default).frame_index < (cfg.num_frames : Int) ∧
          (run cfg trace).frames.getD
            ((run cfg trace).tlb.getD k default).frame_index.toNat (-1) =
            (((run cfg trace).tlb.getD k default).vpn : Int))) ∧
    (∀ (cfg : Config) (victim : Nat) (st : SimState), 0 < cfg.tlb_size →
      st.frames.getD victim (-1) ≠ -1 →
      ∀ k < st.tlb.length,
        ((handleEviction cfg victim st).tlb.getD k default).valid = true →
        ((handleEviction cfg victim st).tlb.getD k default).vpn ≠
          castIntToUInt (st.frames.getD victim (-1))) := by
  constructor
  · intro cfg trace hnf k hk hval
    exact (inv_run cfg trace hnf).2.1.2 k hk hval
  · intro cfg victim st hts hocc k hk hval
    have htlb_eq : (handleEviction cfg victim st).tlb =
        tlb_invalidate_vpn st.tlb (castIntToUInt (st.frames.getD victim (-1))) := by
      unfold handleEviction
      rw [if_pos hocc]
      dsimp only
      rw [if_pos hts]
    rw [htlb_eq] at hval ⊢
    obtain ⟨heq, hne⟩ := tlb_invalidate_valid _ _ _ hk hval
    rw [heq]
    exact hne

/-- Witness for C1: two frames, a 2-entry TLB and the single record
`R 0x0` — afterwards TLB entry 0 is valid, and the theorem instantiates
to its consistency facts. -/
theorem tlb_consistency_witness :
    0 < (⟨Algorithm.fifo, WritePolicy.writeThrough, 2, 2⟩ : Config).num_frames ∧
    (0 : Nat) < (⟨Algorithm.fifo, WritePolicy.writeThrough, 2, 2⟩ : Config).tlb_size ∧
    (((run ⟨Algorithm.fifo, WritePolicy.writeThrough, 2, 2⟩
        [('R', 0)]).tlb.getD 0 default).valid = true) ∧
    (0 ≤ ((run ⟨Algorithm.fifo, WritePolicy.writeThrough, 2, 2⟩
        [('R', 0)]).tlb.getD 0 default).frame_index ∧
      ((run ⟨Algorithm.fifo, WritePolicy.writeThrough, 2, 2⟩
        [('R', 0)]).tlb.getD 0 default).frame_index <
        ((⟨Algorithm.fifo, WritePolicy.writeThrough, 2, 2⟩ : Config).num_frames : Int) ∧
      (run ⟨Algorithm.fifo, WritePolicy.writeThrough, 2, 2⟩ [('R', 0)]).frames.getD
        ((run ⟨Algorithm.fifo, WritePolicy.writeThrough, 2, 2⟩
          [('R', 0)]).tlb.getD 0 default).frame_index.toNat (-1) =
        (((run ⟨Algorithm.fifo, WritePolicy.writeThrough, 2, 2⟩
          [('R', 0)]).tlb.getD 0 default).vpn : Int)) :=
  ⟨by decide, by decide, by decide,
    tlb_consistency.1 ⟨Algorithm.fifo, WritePolicy.writeThrough, 2, 2⟩ [('R', 0)]
      (by decide) 0 (by decide) (by decide)⟩

/-- C2. Capacity / no-duplicate-residency invariant: after any trace
(capacity ≥ 1), the frame array still has exactly `numFrames` slots, at
most `numFrames` VPNs are resident, and the non-empty occupants are
pairwise distinct. -/
theorem capacity_no_duplicate (cfg : Config) (trace : List (Char × Nat))
    (hnf : 0 < cfg.num_frames) :
    (run cfg trace).frames.length = cfg.num_frames ∧
    ((run cfg trace).frames.filter (fun x => !(x == (-1 : Int)))).length ≤
      cfg.num_frames ∧
    ((run cfg trace).frames.filter (fun x => !(x == (-1 : Int)))).Nodup := by
  have h := inv_run cfg trace hnf
  refine ⟨h.1.1, ?_, framesWf_nodup _ _ h.1⟩
  have hle := List.length_filter_le (fun x : Int => !(x == (-1 : Int)))
    (run cfg trace).frames
  have hflen := h.1.1
  omega

/-- Witness for C2: FIFO, 2 frames, three distinct pages — both frames
occupied, occupants distinct. -/
theorem capacity_no_duplicate_witness :
    0 < (⟨Algorithm.fifo, WritePolicy.writeThrough, 0, 2⟩ : Config).num_frames ∧
    ((run ⟨Algorithm.fifo, WritePolicy.writeThrough, 0, 2⟩
        [('R', 0), ('R', 4096), ('R', 8192)]).frames.length =
      (⟨Algorithm.fifo, WritePolicy.writeThrough, 0, 2⟩ : Config).num_frames ∧
    ((run ⟨Algorithm.fifo, WritePolicy.writeThrough, 0, 2⟩
        [('R', 0), ('R', 4096), ('R', 8192)]).frames.filter
          (fun x => !(x == (-1 : Int)))).length ≤
      (⟨Algorithm.fifo, WritePolicy.writeThrough, 0, 2⟩ : Config).num_frames ∧
    ((run ⟨Algorithm.fifo, WritePolicy.writeThrough, 0, 2⟩
        [('R', 0), ('R', 4096), ('R', 8192)]).frames.filter
          (fun x => !(x == (-1 : Int)))).Nodup) :=
  ⟨by decide,
    capacity_no_duplicate ⟨Algorithm.fifo, WritePolicy.writeThrough, 0, 2⟩
      [('R', 0), ('R', 4096), ('R', 8192)] (by decide)⟩

end VMSim
